import Mathlib

/-!
# sd-boot bootloader backend of ostree

A shallow embedding of `src/libostree/ostree-bootloader-sd-boot.c`:
`clean_bootversion`, `clean_bootdata`, `do_copy_if_needed`, `deploy_boot_data`,
`write_out_boot_config` and `_ostree_bootloader_sd_boot_write_config`, over an
explicit filesystem state.

The filesystem is a finite map from paths (component lists rooted at the
sysroot) to nodes.  Environmental failures (permissions, I/O errors,
cancellation, the collaborator that lists boot entries) are a fixed oracle
`Env`, so every operation is a deterministic, executable function of the
state.

Modelling choices: symbolic links are left out; names are resolved lexically
(`.` and `..` by position, not by what exists on the way); directory
iteration works on the listing taken when the directory is opened; one `Env`
stands for the environment of a whole call, and of both calls when two calls
are compared.
-/

namespace SdBoot

/-! ## Paths and the filesystem state -/

/-- A path from the sysroot, one string per component. -/
abbrev Path := List String

/-- A filesystem node: a regular file with its bytes, or a directory.
Symbolic links are not modelled. -/
inductive Node where
  | file (content : String)
  | dir
  deriving DecidableEq, Repr

/-- The filesystem: an association list from paths to nodes, first match wins. -/
abbrev FS := List (Path × Node)

/-- The node at a path, if any. -/
def lookup : FS → Path → Option Node
  | [], _ => none
  | (q, n) :: rest, p => if q = p then some n else lookup rest p

/-- Remove the node stored at exactly `p`. -/
def erasePath (fs : FS) (p : Path) : FS :=
  fs.filter (fun e => !decide (e.1 = p))

/-- Remove `p` and everything below it. -/
def eraseTree (fs : FS) (p : Path) : FS :=
  fs.filter (fun e => !(p.isPrefixOf e.1))

/-- The name of `p` when `p` is a direct child of `d`. -/
def childName (d : Path) (p : Path) : Option String :=
  if p.dropLast = d then p.getLast? else none

/-- The names a directory iteration over `d` yields.  The implicit entries `.`
and `..`, which `glnx_dirfd_iterator_next_dent` skips, are not stored in the
model, so every listed name is returned. -/
def readdir (fs : FS) (d : Path) : List String :=
  fs.filterMap (fun e => childName d e.1)

/-- Well-formed trees: the parent of every node is a directory (the sysroot
itself, the empty path, need not be stored). -/
def wellFormed (fs : FS) : Prop :=
  ∀ p c, lookup fs (p ++ [c]) ≠ none → p = [] ∨ lookup fs p = some Node.dir

/-! ## C strings and GLib path helpers -/

/-- Split a name at `/`; the result always has at least one (possibly empty) piece. -/
def splitSlash : List Char → List (List Char)
  | [] => [[]]
  | c :: cs =>
    if c = '/' then [] :: splitSlash cs
    else
      match splitSlash cs with
      | [] => [[c]]
      | h :: t => (c :: h) :: t

/-- The non-empty components of a name. -/
def components (s : String) : List String :=
  ((splitSlash s.data).filter (fun c => !c.isEmpty)).map String.mk

/-- Walk components from a directory: `.` stays, `..` steps to the parent,
anything else descends.  Resolution is lexical. -/
def walk : Path → List String → Path
  | base, [] => base
  | base, c :: cs =>
    if c = "." then walk base cs
    else if c = ".." then walk base.dropLast cs
    else walk (base ++ [c]) cs

/-- Resolve a name relative to an open directory.  The empty name resolves to
nothing (POSIX `ENOENT`); a name that is still absolute is read relative to
the directory. -/
def resolve (dfd : Path) (name : String) : Option Path :=
  if name = "" then none else some (walk dfd (components name))

/-- GLib `g_str_has_prefix`. -/
def g_str_has_prefix (s p : String) : Bool := p.data.isPrefixOf s.data

/-- GLib `g_str_has_suffix`. -/
def g_str_has_suffix (s p : String) : Bool := p.data.isSuffixOf s.data

/-- GLib `g_path_get_dirname` (Unix): everything before the last run of
slashes, `.` when there is no slash, `/` when nothing precedes it. -/
def g_path_get_dirname (file_name : String) : String :=
  let upto := file_name.data.reverse.dropWhile (fun c => !decide (c = '/'))
  if upto = [] then "."
  else
    let stripped := upto.dropWhile (fun c => decide (c = '/'))
    if stripped = [] then "/" else String.mk stripped.reverse

/-- GLib `g_path_get_basename`: the last component, ignoring trailing slashes;
`.` for the empty string and `/` for a string of slashes. -/
def g_path_get_basename (file_name : String) : String :=
  if file_name.data = [] then "."
  else
    let r := file_name.data.reverse.dropWhile (fun c => decide (c = '/'))
    if r = [] then "/"
    else String.mk (r.takeWhile (fun c => !decide (c = '/'))).reverse

/-- The conversion `%d` of `g_strdup_printf`. -/
def fmt_d (n : Int) : String := toString n

/-! ## Environment -/

/-- One boot menu entry.  `linux` and `version` are read unconditionally by the
code; `initrd` may be absent. -/
structure BootEntryConfig where
  linux : String
  initrd : Option String
  version : String
  deriving DecidableEq, Repr

/-- The failures the environment can inject, and the collaborator that lists
the entries of a boot version. -/
structure Env where
  cancelled : Bool
  open_fails : Path → Bool
  stat_fails : Path → Bool
  mkdir_fails : Path → Bool
  copy_fails : Path → Bool
  write_fails : Path → Bool
  unlink_fails : Path → Bool
  rm_rf_fails : Path → Bool
  read_boot_loader_configs : Int → Option (List BootEntryConfig)

/-- Modelled from the spec: `_ostree_sysroot_read_boot_loader_configs` is not
under src/; it is the collaborator `listBootEntries(slot)`, which either fails
or supplies the ordered entry list. -/
def _ostree_sysroot_read_boot_loader_configs (env : Env) (bootversion : Int) :
    Option (List BootEntryConfig) :=
  env.read_boot_loader_configs bootversion

/-- Modelled from the spec: the text that `ostree_bootconfig_parser_write_at`
(not under src/) stores in the entry file, the entry's key-value content. -/
def serialize (config : BootEntryConfig) : String :=
  "linux " ++ config.linux ++ "\n" ++
  (match config.initrd with
   | some i => "initrd " ++ i ++ "\n"
   | none => "") ++
  "version " ++ config.version ++ "\n"

/-! ## System and library calls -/

/-- Modelled from the spec: `glnx_opendirat` (libglnx, not under src/) opens a
directory by name relative to `dfd`; it fails when the name does not resolve
to a directory or the environment refuses the open. -/
def glnx_opendirat (env : Env) (fs : FS) (dfd : Path) (path : String) : Option Path :=
  match resolve dfd path with
  | none => none
  | some p =>
    if lookup fs p = some Node.dir ∧ env.open_fails p = false then some p else none

/-- The three outcomes `do_copy_if_needed` tells apart after `fstatat`. -/
inductive StatResult where
  | found
  | enoent
  | failed
  deriving DecidableEq, Repr

/-- POSIX `fstatat(dfd, path, &stbuf, 0)`: does the name exist. -/
def fstatat (env : Env) (fs : FS) (dfd : Path) (path : String) : StatResult :=
  match resolve dfd path with
  | none => StatResult.enoent
  | some p =>
    if env.stat_fails p then StatResult.failed
    else if lookup fs p ≠ none then StatResult.found
    else StatResult.enoent

/-- POSIX `unlinkat(fd, name, 0)` on a name read from the directory: removes a
non-directory, fails on a directory, a missing name or an injected failure. -/
def unlinkat (env : Env) (fs : FS) (fd : Path) (d_name : String) : Option FS :=
  match lookup fs (fd ++ [d_name]) with
  | some (Node.file _) =>
    if env.unlink_fails (fd ++ [d_name]) then none
    else some (erasePath fs (fd ++ [d_name]))
  | _ => none

/-- Modelled from the spec: `glnx_shutil_rm_rf_at` (libglnx, not under src/)
recursively removes the entry, directory or not; an absent entry is not an
error. -/
def glnx_shutil_rm_rf_at (env : Env) (fs : FS) (fd : Path) (d_name : String) : Option FS :=
  if env.cancelled ∨ env.rm_rf_fails (fd ++ [d_name]) then none
  else some (eraseTree fs (fd ++ [d_name]))

/-- Create the directories along `todo` below `cur` that do not exist yet. -/
def mkdirChain : FS → Path → List String → Option FS
  | fs, _, [] => some fs
  | fs, cur, c :: cs =>
    match lookup fs (cur ++ [c]) with
    | some Node.dir => mkdirChain fs (cur ++ [c]) cs
    | some (Node.file _) => none
    | none => mkdirChain ((cur ++ [c], Node.dir) :: fs) (cur ++ [c]) cs

/-- Modelled from the spec: `glnx_shutil_mkdir_p_at` (libglnx, not under src/)
creates the directory chain of the name; it fails on cancellation, on an
injected failure and when a component is a regular file. -/
def glnx_shutil_mkdir_p_at (env : Env) (fs : FS) (dfd : Path) (path : String) : Option FS :=
  if env.cancelled then none
  else
    match resolve dfd path with
    | none => none
    | some p => if env.mkdir_fails p then none else mkdirChain fs [] p

/-- Modelled from the spec: `glnx_file_copy_at` (libglnx, not under src/) with
flags 0 copies the bytes of a regular file to a destination that must not
exist yet and whose parent is a directory. -/
def glnx_file_copy_at (env : Env) (fs : FS) (src_dfd : Path) (src : String)
    (dest_dfd : Path) (dest : String) : Option FS :=
  if env.cancelled then none
  else
    match resolve src_dfd src, resolve dest_dfd dest with
    | some s, some d =>
      match lookup fs s with
      | some (Node.file c) =>
        if lookup fs d ≠ none then none
        else if lookup fs d.dropLast ≠ some Node.dir then none
        else if env.copy_fails d then none
        else some ((d, Node.file c) :: fs)
      | _ => none
    | _, _ => none

/-- Modelled from the spec: `ostree_bootconfig_parser_write_at` is not under
src/; it writes the entry's full key-value content into the named file inside
the directory, replacing a previous file of that name. -/
def ostree_bootconfig_parser_write_at (env : Env) (fs : FS) (config : BootEntryConfig)
    (dfd : Path) (name : String) : Option FS :=
  match resolve dfd name with
  | none => none
  | some p =>
    if lookup fs p = some Node.dir then none
    else if lookup fs p.dropLast ≠ some Node.dir then none
    else if env.write_fails p then none
    else some ((p, Node.file (serialize config)) :: erasePath fs p)

/-! ## The backend -/

/-- The field `self->config_path`, resolved from the sysroot in
`_ostree_bootloader_sd_boot_new`. -/
def config_path : String := "boot/efi/loader/entries"

/-- The loader-entries directory as a path. -/
def entriesDir : Path := ["boot", "efi", "loader", "entries"]

/-- The payload root `boot/efi/ostree` as a path. -/
def payloadRoot : Path := ["boot", "efi", "ostree"]

/-- The test of `clean_bootversion` on a directory entry's name. -/
def isSlotEntryName (bootversion : Int) (d_name : String) : Bool :=
  ( g_str_has_prefix d_name ("ostree-" ++ fmt_d bootversion ++ "-"))
    && g_str_has_suffix d_name ".conf"

/-- One iteration of the loop of `clean_bootversion`; a failed unlink only
warns. -/
def clean_bootversion_step (env : Env) (bootversion : Int) (fd : Path) (fs : FS)
    (d_name : String) : FS :=
  if isSlotEntryName bootversion d_name then
    match unlinkat env fs fd d_name with
    | some fs1 => fs1
    | none => fs
  else fs

/-- Source `clean_bootversion`: returns the gboolean and the filesystem left
behind. -/
def clean_bootversion (env : Env) (bootversion : Int) (fs : FS) : Bool × FS :=
  match glnx_opendirat env fs [] config_path with
  | none => (false, fs)
  | some fd =>
    if env.cancelled then (false, fs)
    else (true, (readdir fs fd).foldl (clean_bootversion_step env bootversion fd) fs)

/-- One iteration of the loop of `clean_bootdata`; a failed removal only
warns. -/
def clean_bootdata_step (env : Env) (active_bootdata : List String) (fd : Path) (fs : FS)
    (d_name : String) : FS :=
  if active_bootdata.contains d_name then fs
  else
    match glnx_shutil_rm_rf_at env fs fd d_name with
    | some fs1 => fs1
    | none => fs

/-- Source `clean_bootdata`. -/
def clean_bootdata (env : Env) (active_bootdata : List String) (fs : FS) : Bool × FS :=
  match glnx_opendirat env fs [] "boot/efi/ostree" with
  | none => (false, fs)
  | some fd =>
    if env.cancelled then (false, fs)
    else (true, (readdir fs fd).foldl (clean_bootdata_step env active_bootdata fd) fs)

/-- What one call of `do_copy_if_needed` returned and did. -/
structure StageOutcome where
  ok : Bool
  fs : FS
  mkdir_calls : Nat
  copy_calls : Nat
  deriving DecidableEq, Repr

/-- The pointer step `relpath + (relpath[0] == '/' ? 1 : 0)`. -/
def skipLeadingSlash (relpath : String) : String :=
  match relpath.data with
  | '/' :: rest => String.mk rest
  | _ => relpath

/-- Source `do_copy_if_needed`; `none` is the NULL pointer. -/
def do_copy_if_needed (env : Env) (relpath : Option String) (bootfd efifd : Path) (fs : FS) :
    StageOutcome :=
  match relpath with
  | none => ⟨true, fs, 0, 0⟩
  | some r =>
    let relpath := skipLeadingSlash r
    let dirname := g_path_get_dirname relpath
    match fstatat env fs efifd relpath with
    | StatResult.found => ⟨true, fs, 0, 0⟩
    | StatResult.failed => ⟨false, fs, 0, 0⟩
    | StatResult.enoent =>
      match glnx_shutil_mkdir_p_at env fs efifd dirname with
      | none => ⟨false, fs, 1, 0⟩
      | some fs1 =>
        match glnx_file_copy_at env fs1 bootfd relpath efifd relpath with
        | none => ⟨false, fs1, 1, 1⟩
        | some fs2 => ⟨true, fs2, 1, 1⟩

/-- Source `deploy_boot_data`.  `ret` starts TRUE and the failed open of
`boot/efi` jumps to `out` without clearing it. -/
def deploy_boot_data (env : Env) (config : BootEntryConfig) (fs : FS) : Bool × FS :=
  let li := some config.linux
  let initrd := config.initrd
  match glnx_opendirat env fs [] "boot" with
  | none => (false, fs)
  | some bootfd =>
    match glnx_opendirat env fs [] "boot/efi" with
    | none => (true, fs)
    | some efifd =>
      let r1 := do_copy_if_needed env li bootfd efifd fs
      if r1.ok = false then (false, r1.fs)
      else
        let r2 := do_copy_if_needed env initrd bootfd efifd r1.fs
        if r2.ok = false then (false, r2.fs)
        else (true, r2.fs)

/-- The file name built by `write_out_boot_config`. -/
def entryFileName (bootversion : Int) (version : String) : String :=
  "ostree-" ++ fmt_d bootversion ++ "-" ++ version ++ ".conf"

/-- Source `write_out_boot_config`. -/
def write_out_boot_config (env : Env) (config : BootEntryConfig) (bootversion : Int)
    (fs : FS) : Bool × FS :=
  let name := entryFileName bootversion config.version
  match glnx_opendirat env fs [] config_path with
  | none => (false, fs)
  | some fd =>
    match ostree_bootconfig_parser_write_at env fs config fd name with
    | none => (false, fs)
    | some fs1 => (true, fs1)

/-- The step of `write_config` that returned FALSE. -/
inductive Failure where
  | sweep_before
  | fetch
  | stage
  | write_entry
  | sweep_opposite
  | sweep_payload
  deriving DecidableEq, Repr

/-- The key `base` the loop of `write_config` puts into `active_bootdata`. -/
def bootdataKey (config : BootEntryConfig) : String :=
  g_path_get_basename (g_path_get_dirname config.linux)

/-- The `for` loop of `write_config` over the fetched entries: returns the
failing step if any, the filesystem, and `active_bootdata`. -/
def write_config_loop (env : Env) (bootversion : Int) :
    List BootEntryConfig → List String → FS → Option Failure × FS × List String
  | [], active, fs => (none, fs, active)
  | config :: rest, active, fs =>
    let active1 := if active.contains (bootdataKey config) then active
                   else bootdataKey config :: active
    let r := deploy_boot_data env config fs
    if r.1 = false then (some Failure.stage, r.2, active1)
    else
      let w := write_out_boot_config env config bootversion r.2
      if w.1 = false then (some Failure.write_entry, w.2, active1)
      else write_config_loop env bootversion rest active1 w.2

/-- Source `_ostree_bootloader_sd_boot_write_config`: `none` is TRUE, `some f`
is FALSE with the step that failed; the filesystem left behind is returned
either way. -/
def _ostree_bootloader_sd_boot_write_config (env : Env) (bootversion : Int) (fs : FS) :
    Option Failure × FS :=
  let c1 := clean_bootversion env bootversion fs
  if c1.1 = false then (some Failure.sweep_before, c1.2)
  else
    match _ostree_sysroot_read_boot_loader_configs env bootversion with
    | none => (some Failure.fetch, c1.2)
    | some boot_loader_configs =>
      let l := write_config_loop env bootversion boot_loader_configs [] c1.2
      match l.1 with
      | some f => (some f, l.2.1)
      | none =>
        let c2 := clean_bootversion env (if bootversion = 0 then 1 else 0) l.2.1
        if c2.1 = false then (some Failure.sweep_opposite, c2.2)
        else
          let c3 := clean_bootdata env l.2.2 c2.2
          if c3.1 = false then (some Failure.sweep_payload, c3.2)
          else (none, c3.2)

/-! ## Concrete states used by the closed theorems -/

/-- An environment without injected failures that supplies the entries `L`. -/
def quietEnv (L : List BootEntryConfig) : Env :=
  { cancelled := false
    open_fails := fun _ => false
    stat_fails := fun _ => false
    mkdir_fails := fun _ => false
    copy_fails := fun _ => false
    write_fails := fun _ => false
    unlink_fails := fun _ => false
    rm_rf_fails := fun _ => false
    read_boot_loader_configs := fun _ => some L }

/-- The directories every deployed sysroot has, without the payload root. -/
def bareFs : FS :=
  [([], Node.dir), (["boot"], Node.dir), (["boot", "efi"], Node.dir),
   (["boot", "efi", "loader"], Node.dir),
   (["boot", "efi", "loader", "entries"], Node.dir)]

/-- A sysroot with an empty payload root and the kernel and initramfs of
deployment `abc123` in the staging area `boot`. -/
def sampleFs : FS :=
  bareFs ++
  [(["boot", "efi", "ostree"], Node.dir),
   (["boot", "abc123"], Node.dir),
   (["boot", "abc123", "vmlinuz"], Node.file "kernel"),
   (["boot", "abc123", "initramfs.img"], Node.file "initramfs")]

/-- The entry of the example scenario of the specification. -/
def sampleEntry : BootEntryConfig :=
  { linux := "/abc123/vmlinuz", initrd := some "/abc123/initramfs.img", version := "1.0" }

/-- An entry without the optional `initrd` key. -/
def kernelOnlyEntry : BootEntryConfig :=
  { linux := "/abc123/vmlinuz", initrd := none, version := "1.0" }

/-- The quiet environment, except that `boot/efi` cannot be opened (for
instance a directory that may be searched but not read). -/
def efiUnreadableEnv (L : List BootEntryConfig) : Env :=
  { quietEnv L with open_fails := fun p => decide (p = ["boot", "efi"]) }

/-- A sysroot whose `boot` exists while `boot/efi` does not. -/
def bootOnlyFs : FS := [([], Node.dir), (["boot"], Node.dir)]

/-- A sysroot without the payload root `boot/efi/ostree`, with the kernel of
deployment `abc123` in the staging area. -/
def noPayloadRootFs : FS :=
  bareFs ++
  [(["boot", "abc123"], Node.dir),
   (["boot", "abc123", "vmlinuz"], Node.file "kernel")]

/-- Is the node a regular file. -/
def isFileNode : Option Node → Bool
  | some (Node.file _) => true
  | _ => false

/-- The paths `clean_bootversion` removes from `fs`: regular files directly in
the loader-entries directory whose name matches the slot and whose unlink is
not refused. -/
def entrySwept (env : Env) (bootversion : Int) (fs : FS) (p : Path) : Bool :=
  match childName entriesDir p with
  | some n => isSlotEntryName bootversion n && isFileNode (lookup fs p) && !env.unlink_fails p
  | none => false

/-- The paths `clean_bootdata` removes from `fs`: everything at or below an
entry of the payload root that is not in the active set and whose removal is
not refused. -/
def payloadSwept (env : Env) (active : List String) (fs : FS) (p : Path) : Bool :=
  match (p.drop payloadRoot.length).head? with
  | some n =>
    payloadRoot.isPrefixOf p && !active.contains n && !env.rm_rf_fails (payloadRoot ++ [n])
      && (lookup fs (payloadRoot ++ [n])).isSome
  | none => false

/-- A loader-entries directory holding entry files of both slots, a dotfile,
an unrelated file and a subdirectory. -/
def mixedEntriesFs : FS :=
  sampleFs ++
  [(["boot", "efi", "loader", "entries", "ostree-0-1.0.conf"], Node.file "old 0"),
   (["boot", "efi", "loader", "entries", "ostree-1-2.0.conf"], Node.file "old 1"),
   (["boot", "efi", "loader", "entries", ".hidden"], Node.file "dot"),
   (["boot", "efi", "loader", "entries", "other.conf"], Node.file "other"),
   (["boot", "efi", "loader", "entries", "sub"], Node.dir)]

/-- Nothing of `fs` is missing from `fs1`, and files stay files, directories
stay directories. -/
def grows (fs fs1 : FS) : Prop :=
  ∀ p, lookup fs p ≠ none →
    lookup fs1 p ≠ none ∧ isFileNode (lookup fs1 p) = isFileNode (lookup fs p)

/-- An entry laid out as ostree lays them out: kernel and initramfs in
`/ostree/<deployment>/`. -/
def ostreeEntry : BootEntryConfig :=
  { linux := "/ostree/abc123/vmlinuz", initrd := some "/ostree/abc123/initramfs.img",
    version := "1" }

/-- A sysroot with deployment `abc123` in the staging area and a payload
directory `stale` left by an earlier deployment, whose entry file for slot 1
is still in place. -/
def ostreeFs : FS :=
  bareFs ++
  [(["boot", "efi", "ostree"], Node.dir),
   (["boot", "efi", "ostree", "stale"], Node.dir),
   (["boot", "efi", "ostree", "stale", "vmlinuz"], Node.file "old kernel"),
   (["boot", "efi", "loader", "entries", "ostree-1-1.conf"], Node.file "old entry"),
   (["boot", "ostree"], Node.dir),
   (["boot", "ostree", "abc123"], Node.dir),
   (["boot", "ostree", "abc123", "vmlinuz"], Node.file "kernel"),
   (["boot", "ostree", "abc123", "initramfs.img"], Node.file "initramfs")]

/-- An entry whose kernel is not in the staging area. -/
def missingKernelEntry : BootEntryConfig :=
  { linux := "/ostree/def456/vmlinuz", initrd := none, version := "2" }

/-- A single path component: not empty, without `/`, neither `.` nor `..`. -/
def plainName (s : String) : Prop :=
  s.data ≠ [] ∧ '/' ∉ s.data ∧ s ≠ "." ∧ s ≠ ".."

/-- A check of `wellFormed` on a given tree. -/
def wellFormedB (fs : FS) : Bool :=
  fs.all (fun e => decide (e.1.dropLast = []) || decide (lookup fs e.1.dropLast = some Node.dir))

/-- An environment without injected failures that supplies `L0` for boot
version 0 and `L1` for every other boot version. -/
def twoSlotEnv (L0 L1 : List BootEntryConfig) : Env :=
  { quietEnv L0 with
    read_boot_loader_configs := fun b => if b = 0 then some L0 else some L1 }

/-- A second entry for deployment `abc123` carrying the same `version` as
`ostreeEntry`. -/
def sameVersionEntry : BootEntryConfig :=
  { linux := "/ostree/abc123/vmlinuz", initrd := none, version := "1" }

/-- The regular files of the loader-entries directory that belong to a slot. -/
def slotEntryFiles (bootversion : Int) (fs : FS) : List String :=
  (readdir fs entriesDir).filter
    (fun n => isSlotEntryName bootversion n && isFileNode (lookup fs (entriesDir ++ [n])))

/-- The path `d` is where staging puts the `linux` or `initrd` file of some
entry of `L`. -/
def stagedBy (L : List BootEntryConfig) (d : Path) : Prop :=
  ∃ e ∈ L, ∃ r, (some e.linux = some r ∨ e.initrd = some r) ∧
    resolve ["boot", "efi"] (skipLeadingSlash r) = some d

/-- The path `p` is where the entry file of some entry of `L` is written. -/
def writtenBy (bootversion : Int) (L : List BootEntryConfig) (p : Path) : Prop :=
  ∃ e ∈ L, resolve entriesDir (entryFileName bootversion e.version) = some p

/-- An entry whose initramfs lives in a directory other than the kernel's. -/
def sharedInitrdEntry : BootEntryConfig :=
  { linux := "/ostree/abc123/vmlinuz", initrd := some "/ostree/shared/initramfs.img",
    version := "1" }

/-- A sysroot where `boot/efi/ostree/shared/initramfs.img` is already staged
while the staging area `boot` holds only the kernel of `abc123`. -/
def prestagedFs : FS :=
  bareFs ++
  [(["boot", "efi", "ostree"], Node.dir),
   (["boot", "efi", "ostree", "shared"], Node.dir),
   (["boot", "efi", "ostree", "shared", "initramfs.img"], Node.file "initramfs"),
   (["boot", "ostree"], Node.dir),
   (["boot", "ostree", "abc123"], Node.dir),
   (["boot", "ostree", "abc123", "vmlinuz"], Node.file "kernel")]

/-- The entry of the next deployment, `def456`. -/
def nextEntry : BootEntryConfig :=
  { linux := "/ostree/def456/vmlinuz", initrd := none, version := "2" }

/-- The sample sysroot with the kernel of deployment `def456` added to the
staging area. -/
def twoDeploymentsFs : FS :=
  ostreeFs ++
  [(["boot", "ostree", "def456"], Node.dir),
   (["boot", "ostree", "def456", "vmlinuz"], Node.file "kernel 2")]

/-- An entry whose `linux` path points into `loader/entries` of the staging
area. -/
def entriesKernelEntry : BootEntryConfig :=
  { linux := "/loader/entries/ostree-1-zzz.conf", initrd := none, version := "2" }

/-- The sample sysroot with a file `boot/loader/entries/ostree-1-zzz.conf` in
the staging area. -/
def stagingEntriesFs : FS :=
  ostreeFs ++
  [(["boot", "loader"], Node.dir),
   (["boot", "loader", "entries"], Node.dir),
   (["boot", "loader", "entries", "ostree-1-zzz.conf"], Node.file "text")]

/-! ## Lookup after the primitive updates -/

theorem lookup_cons (q : Path) (n : Node) (fs : FS) (p : Path) :
    lookup ((q, n) :: fs) p = if q = p then some n else lookup fs p := rfl

theorem lookup_filter_path (keep : Path → Bool) (fs : FS) (p : Path) :
    lookup (fs.filter (fun e => keep e.1)) p = if keep p then lookup fs p else none := by
  induction fs with
  | nil => simp [lookup]
  | cons e rest ih =>
    obtain ⟨q, n⟩ := e
    by_cases hk : keep q = true
    · simp only [List.filter_cons, hk, if_true, lookup_cons, ih]
      by_cases hq : q = p
      · subst hq; simp [hk]
      · simp [hq]
    · simp only [List.filter_cons, hk, lookup_cons]
      by_cases hq : q = p
      · subst hq; simp [hk, ih]
      · simp [hq, ih]

theorem lookup_erasePath (fs : FS) (p q : Path) :
    lookup (erasePath fs p) q = if q = p then none else lookup fs q := by
  unfold erasePath
  rw [lookup_filter_path (fun x => !decide (x = p))]
  by_cases h : q = p <;> simp [h]

theorem lookup_eraseTree (fs : FS) (p q : Path) :
    lookup (eraseTree fs p) q = if p.isPrefixOf q then none else lookup fs q := by
  unfold eraseTree
  rw [lookup_filter_path (fun x => !(p.isPrefixOf x))]
  by_cases h : p.isPrefixOf q = true <;> simp [h]

theorem childName_eq_some (d p : Path) (n : String) :
    childName d p = some n ↔ p = d ++ [n] := by
  unfold childName
  constructor
  · intro h
    split at h
    · rename_i hd
      have := List.dropLast_append_getLast? n h
      rw [← this, hd]
    · cases h
  · intro h
    subst h
    simp

theorem lookup_ne_none_of_mem (fs : FS) (p : Path) (n : Node) (h : (p, n) ∈ fs) :
    lookup fs p ≠ none := by
  induction fs with
  | nil => cases h
  | cons e rest ih =>
    obtain ⟨q, m⟩ := e
    rw [lookup_cons]
    by_cases hq : q = p
    · simp [hq]
    · simp only [hq, if_false]
      apply ih
      rcases List.mem_cons.mp h with h1 | h1
      · cases h1; exact absurd rfl hq
      · exact h1

theorem exists_mem_of_lookup (fs : FS) (p : Path) (h : lookup fs p ≠ none) :
    ∃ n, (p, n) ∈ fs := by
  induction fs with
  | nil => exact absurd rfl h
  | cons e rest ih =>
    obtain ⟨q, m⟩ := e
    rw [lookup_cons] at h
    by_cases hq : q = p
    · exact ⟨m, by simp [hq]⟩
    · simp only [hq, if_false] at h
      obtain ⟨n, hn⟩ := ih h
      exact ⟨n, List.mem_cons_of_mem _ hn⟩

theorem mem_readdir (fs : FS) (d : Path) (n : String) :
    n ∈ readdir fs d ↔ lookup fs (d ++ [n]) ≠ none := by
  unfold readdir
  rw [List.mem_filterMap]
  constructor
  · rintro ⟨⟨p, m⟩, hmem, hc⟩
    rw [childName_eq_some] at hc
    simp only at hc
    subst hc
    exact lookup_ne_none_of_mem fs _ m hmem
  · intro h
    obtain ⟨m, hm⟩ := exists_mem_of_lookup fs _ h
    exact ⟨(d ++ [n], m), hm, (childName_eq_some d _ n).mpr rfl⟩

/-! ## What a successful call tells -/

theorem glnx_opendirat_eq_some (env : Env) (fs : FS) (dfd : Path) (path : String) (p : Path) :
    glnx_opendirat env fs dfd path = some p ↔
      resolve dfd path = some p ∧ lookup fs p = some Node.dir ∧ env.open_fails p = false := by
  unfold glnx_opendirat
  cases hres : resolve dfd path with
  | none => simp
  | some q =>
    by_cases h : lookup fs q = some Node.dir ∧ env.open_fails q = false
    · simp only [h, and_self, if_true, Option.some.injEq]
      constructor
      · intro e; subst e; exact ⟨rfl, h⟩
      · intro e; exact e.1
    · simp only [h, if_false, Option.some.injEq]
      constructor
      · intro e; cases e
      · rintro ⟨e, h1⟩
        subst e
        exact absurd h1 h

theorem glnx_file_copy_at_eq_some (env : Env) (fs : FS) (sd : Path) (src : String) (dd : Path)
    (dest : String) (fs2 : FS) (h : glnx_file_copy_at env fs sd src dd dest = some fs2) :
    ∃ s d c, resolve sd src = some s ∧ resolve dd dest = some d ∧
      lookup fs s = some (Node.file c) ∧ lookup fs d = none ∧
      lookup fs d.dropLast = some Node.dir ∧ fs2 = (d, Node.file c) :: fs := by
  unfold glnx_file_copy_at at h
  by_cases hc : env.cancelled = true
  · simp [hc] at h
  · simp only [hc, if_false] at h
    cases hs : resolve sd src with
    | none => simp [hs] at h
    | some s =>
      cases hd : resolve dd dest with
      | none => simp [hs, hd] at h
      | some d =>
        simp only [hs, hd] at h
        cases hl : lookup fs s with
        | none => simp [hl] at h
        | some n =>
          cases n with
          | dir => simp [hl] at h
          | file c =>
            simp only [hl] at h
            by_cases h1 : lookup fs d = none
            · by_cases h2 : lookup fs d.dropLast = some Node.dir
              · cases h3 : env.copy_fails d with
                | true => simp [h1, h2, h3] at h
                | false =>
                  simp [h1, h2, h3] at h
                  exact ⟨s, d, c, rfl, rfl, hl, h1, h2, h.symm⟩
              · simp [h1, h2] at h
            · simp [h1] at h

theorem write_at_eq_some (env : Env) (fs : FS) (config : BootEntryConfig) (dfd : Path)
    (name : String) (fs2 : FS)
    (h : ostree_bootconfig_parser_write_at env fs config dfd name = some fs2) :
    ∃ p, resolve dfd name = some p ∧ lookup fs p ≠ some Node.dir ∧
      lookup fs p.dropLast = some Node.dir ∧
      fs2 = (p, Node.file (serialize config)) :: erasePath fs p := by
  unfold ostree_bootconfig_parser_write_at at h
  cases hr : resolve dfd name with
  | none => simp [hr] at h
  | some p =>
    simp only [hr] at h
    by_cases h1 : lookup fs p = some Node.dir
    · simp [h1] at h
    · by_cases h2 : lookup fs p.dropLast = some Node.dir
      · cases h3 : env.write_fails p with
        | true => simp [h1, h2, h3] at h
        | false =>
          simp [h1, h2, h3] at h
          exact ⟨p, rfl, h1, h2, h.symm⟩
      · simp [h1, h2] at h

theorem unlinkat_eq_some (env : Env) (fs : FS) (fd : Path) (n : String) (fs2 : FS) :
    unlinkat env fs fd n = some fs2 ↔
      (∃ c, lookup fs (fd ++ [n]) = some (Node.file c)) ∧ env.unlink_fails (fd ++ [n]) = false ∧
        fs2 = erasePath fs (fd ++ [n]) := by
  unfold unlinkat
  cases hl : lookup fs (fd ++ [n]) with
  | none => simp
  | some m =>
    cases m with
    | dir => simp
    | file c =>
      cases hu : env.unlink_fails (fd ++ [n]) with
      | true => simp
      | false =>
        simp only [Bool.false_eq_true, if_false, Option.some.injEq, true_and]
        constructor
        · intro e; exact ⟨⟨c, rfl⟩, e.symm⟩
        · intro e; exact e.2.symm

/-! ## Staging one path: `do_copy_if_needed` -/

theorem do_copy_if_needed_none (env : Env) (bootfd efifd : Path) (fs : FS) :
    do_copy_if_needed env none bootfd efifd fs = ⟨true, fs, 0, 0⟩ := rfl

/-- C9 (as stated, refuted): staging the empty string is not a successful
no-op; on the sample sysroot `do_copy_if_needed` with `""` returns FALSE. -/
theorem stage_empty_string_fails :
    (do_copy_if_needed (quietEnv []) (some "") ["boot"] ["boot", "efi"] sampleFs).ok = false := by
  decide

/-- C9 (amended): staging an absent path (NULL) returns success, changes
nothing and calls neither mkdir nor copy; so for an entry without `initrd`,
once `boot` and `boot/efi` are open, `deploy_boot_data` returns exactly what
staging the `linux` path returned and left behind. -/
theorem stage_absent_is_noop (env : Env) (config : BootEntryConfig) (bootfd efifd : Path)
    (fs : FS) (hinitrd : config.initrd = none)
    (hboot : glnx_opendirat env fs [] "boot" = some bootfd)
    (hefi : glnx_opendirat env fs [] "boot/efi" = some efifd) :
    (∀ b e fs1, do_copy_if_needed env none b e fs1 = ⟨true, fs1, 0, 0⟩) ∧
    deploy_boot_data env config fs =
      ((do_copy_if_needed env (some config.linux) bootfd efifd fs).ok,
       (do_copy_if_needed env (some config.linux) bootfd efifd fs).fs) := by
  refine ⟨fun b e fs1 => rfl, ?_⟩
  simp only [deploy_boot_data, hboot, hefi, hinitrd, do_copy_if_needed_none]
  cases h : (do_copy_if_needed env (some config.linux) bootfd efifd fs).ok <;> simp

/-- C9 (amended), witness: the kernel-only entry on the sample sysroot. -/
theorem stage_absent_is_noop_witness :
    (∀ b e fs1, do_copy_if_needed (quietEnv []) none b e fs1 = ⟨true, fs1, 0, 0⟩) ∧
    deploy_boot_data (quietEnv []) kernelOnlyEntry sampleFs =
      ((do_copy_if_needed (quietEnv []) (some kernelOnlyEntry.linux) ["boot"] ["boot", "efi"]
          sampleFs).ok,
       (do_copy_if_needed (quietEnv []) (some kernelOnlyEntry.linux) ["boot"] ["boot", "efi"]
          sampleFs).fs) :=
  stage_absent_is_noop (quietEnv []) kernelOnlyEntry ["boot"] ["boot", "efi"] sampleFs
    rfl (by decide) (by decide)

/-- C5: when `do_copy_if_needed` succeeded, calling it again with the same
arguments on the filesystem it left succeeds, calls neither mkdir nor copy,
and leaves that filesystem as it is. -/
theorem stage_twice (env : Env) (relpath : Option String) (bootfd efifd : Path) (fs : FS)
    (hok : (do_copy_if_needed env relpath bootfd efifd fs).ok = true) :
    do_copy_if_needed env relpath bootfd efifd (do_copy_if_needed env relpath bootfd efifd fs).fs
      = ⟨true, (do_copy_if_needed env relpath bootfd efifd fs).fs, 0, 0⟩ := by
  cases relpath with
  | none => rfl
  | some r =>
    simp only [do_copy_if_needed] at hok ⊢
    cases hst : fstatat env fs efifd (skipLeadingSlash r) with
    | found => simp only [hst]
    | failed => simp [hst] at hok
    | enoent =>
      simp only [hst] at hok ⊢
      cases hmk : glnx_shutil_mkdir_p_at env fs efifd (g_path_get_dirname (skipLeadingSlash r)) with
      | none => simp [hmk] at hok
      | some fs1 =>
        simp only [hmk] at hok ⊢
        cases hcp : glnx_file_copy_at env fs1 bootfd (skipLeadingSlash r) efifd
            (skipLeadingSlash r) with
        | none => simp [hcp] at hok
        | some fs2 =>
          simp only [hcp]
          obtain ⟨s0, d, c, -, hd, -, -, -, hfs2⟩ := glnx_file_copy_at_eq_some _ _ _ _ _ _ _ hcp
          have hfound : fstatat env fs2 efifd (skipLeadingSlash r) = StatResult.found := by
            unfold fstatat at hst ⊢
            simp only [hd] at hst ⊢
            have hsf : env.stat_fails d = false := by
              cases h : env.stat_fails d
              · rfl
              · simp [h] at hst
            simp [hsf, hfs2, lookup_cons]
          simp only [hfound]

/-- C5, witness: staging the sample kernel twice. -/
theorem stage_twice_witness :
    (do_copy_if_needed (quietEnv []) (some "/abc123/vmlinuz") ["boot"] ["boot", "efi"]
        sampleFs).ok = true ∧
    do_copy_if_needed (quietEnv []) (some "/abc123/vmlinuz") ["boot"] ["boot", "efi"]
        (do_copy_if_needed (quietEnv []) (some "/abc123/vmlinuz") ["boot"] ["boot", "efi"]
          sampleFs).fs
      = ⟨true, (do_copy_if_needed (quietEnv []) (some "/abc123/vmlinuz") ["boot"]
          ["boot", "efi"] sampleFs).fs, 0, 0⟩ :=
  ⟨by decide, stage_twice (quietEnv []) (some "/abc123/vmlinuz") ["boot"] ["boot", "efi"]
    sampleFs (by decide)⟩

/-! ## Opening the directories -/

theorem resolve_config_path : resolve [] config_path = some entriesDir := by decide

theorem resolve_payload_root : resolve [] "boot/efi/ostree" = some payloadRoot := by decide

theorem clean_bootdata_unopened (env : Env) (active : List String) (fs : FS)
    (h : lookup fs payloadRoot ≠ some Node.dir) :
    clean_bootdata env active fs = (false, fs) := by
  unfold clean_bootdata glnx_opendirat
  simp [resolve_payload_root, h]

/-- C6 (as stated, refuted): with the payload root missing, `clean_bootdata`
returns FALSE, and a `write_config` whose sweeps, fetch, staging and entry
write all succeeded fails at the payload sweep. -/
theorem missing_payload_root_is_an_error :
    (clean_bootdata (quietEnv []) [] bareFs).1 = false ∧
    (_ostree_bootloader_sd_boot_write_config (quietEnv [kernelOnlyEntry]) 0 noPayloadRootFs).1
      = some Failure.sweep_payload := by
  decide

/-- C6 (amended): when the payload root `boot/efi/ostree` is not a directory,
`clean_bootdata` reports failure for every active set and leaves the
filesystem unchanged; so a `write_config` whose sweep-before, fetch, loop and
sweep-opposite all succeeded returns FALSE at the payload sweep. -/
theorem missing_payload_root_fails (env : Env) (bootversion : Int) (fs fs0 fs1 fs2 : FS)
    (L : List BootEntryConfig) (active : List String)
    (hroot : lookup fs2 payloadRoot ≠ some Node.dir)
    (hbefore : clean_bootversion env bootversion fs = (true, fs0))
    (hfetch : _ostree_sysroot_read_boot_loader_configs env bootversion = some L)
    (hloop : write_config_loop env bootversion L [] fs0 = (none, fs1, active))
    (hopp : clean_bootversion env (if bootversion = 0 then 1 else 0) fs1 = (true, fs2)) :
    (∀ act, clean_bootdata env act fs2 = (false, fs2)) ∧
    _ostree_bootloader_sd_boot_write_config env bootversion fs
      = (some Failure.sweep_payload, fs2) := by
  refine ⟨fun act => clean_bootdata_unopened env act fs2 hroot, ?_⟩
  simp [_ostree_bootloader_sd_boot_write_config, hbefore, hfetch, hloop, hopp,
    clean_bootdata_unopened env active fs2 hroot]

/-- C6 (amended), witness: no entries on a sysroot without the payload root. -/
theorem missing_payload_root_fails_witness :
    (∀ act, clean_bootdata (quietEnv []) act bareFs = (false, bareFs)) ∧
    _ostree_bootloader_sd_boot_write_config (quietEnv []) 0 bareFs
      = (some Failure.sweep_payload, bareFs) :=
  missing_payload_root_fails (quietEnv []) 0 bareFs bareFs bareFs bareFs [] []
    (by decide) (by decide) (by decide) (by decide) (by decide)

/-- C7 (the code departs from the claim): with `boot` open and `boot/efi`
missing, `deploy_boot_data` returns TRUE; and when `boot/efi` cannot be opened
while the loader-entries directory can, `write_config` returns TRUE, has
staged nothing and has written the entry file. -/
theorem deploy_boot_data_ignores_efi_open_failure :
    (deploy_boot_data (quietEnv []) sampleEntry bootOnlyFs).1 = true ∧
    glnx_opendirat (efiUnreadableEnv [sampleEntry]) sampleFs [] "boot/efi" = none ∧
    (deploy_boot_data (efiUnreadableEnv [sampleEntry]) sampleEntry sampleFs).1 = true ∧
    (_ostree_bootloader_sd_boot_write_config (efiUnreadableEnv [sampleEntry]) 0 sampleFs).1
      = none ∧
    lookup (_ostree_bootloader_sd_boot_write_config (efiUnreadableEnv [sampleEntry]) 0
      sampleFs).2 ["boot", "efi", "abc123", "vmlinuz"] = none ∧
    lookup (_ostree_bootloader_sd_boot_write_config (efiUnreadableEnv [sampleEntry]) 0
      sampleFs).2 (entriesDir ++ ["ostree-0-1.0.conf"]) ≠ none := by
  decide

/-! ## The two sweeps -/

theorem lookup_foldl_remove (step : FS → String → FS)
    (K : String → Path → Option Node → Bool)
    (hstep : ∀ fs n p, lookup (step fs n) p = if K n p (lookup fs p) then none else lookup fs p)
    (l : List String) (fs : FS) (p : Path) :
    lookup (l.foldl step fs) p
      = if l.any (fun n => K n p (lookup fs p)) then none else lookup fs p := by
  induction l generalizing fs with
  | nil => simp
  | cons n rest ih =>
    rw [List.foldl_cons, ih, hstep]
    by_cases hk : K n p (lookup fs p) = true
    · simp [hk]
    · simp [hk]

theorem clean_bootversion_step_lookup (env : Env) (bootversion : Int) (fd : Path) (fs : FS)
    (n : String) (p : Path) :
    lookup (clean_bootversion_step env bootversion fd fs n) p
      = if (decide (p = fd ++ [n]) && isSlotEntryName bootversion n && isFileNode (lookup fs p)
            && !env.unlink_fails p) then none else lookup fs p := by
  unfold clean_bootversion_step
  by_cases hs : isSlotEntryName bootversion n = true
  · simp only [hs, if_true, Bool.and_true]
    cases hu : unlinkat env fs fd n with
    | some fs1 =>
      obtain ⟨⟨c, hc⟩, hf, rfl⟩ := (unlinkat_eq_some _ _ _ _ _).mp hu
      simp only [lookup_erasePath]
      by_cases hp : p = fd ++ [n]
      · subst hp; simp [hc, hf, isFileNode]
      · simp [hp]
    | none =>
      simp only
      by_cases hp : p = fd ++ [n]
      · subst hp
        cases hl : lookup fs (fd ++ [n]) with
        | none => simp [isFileNode]
        | some m =>
          cases m with
          | dir => simp [isFileNode]
          | file c =>
            cases hf : env.unlink_fails (fd ++ [n]) with
            | true => simp
            | false =>
              exfalso
              have := (unlinkat_eq_some env fs fd n (erasePath fs (fd ++ [n]))).mpr
                ⟨⟨c, hl⟩, hf, rfl⟩
              rw [hu] at this
              cases this
      · simp [hp]
  · simp [hs]

theorem clean_bootversion_lookup (env : Env) (bootversion : Int) (fs fs1 : FS)
    (h : clean_bootversion env bootversion fs = (true, fs1)) (p : Path) :
    lookup fs1 p = if entrySwept env bootversion fs p then none else lookup fs p := by
  unfold clean_bootversion at h
  cases ho : glnx_opendirat env fs [] config_path with
  | none => simp [ho] at h
  | some fd =>
    obtain ⟨hres, -, -⟩ := (glnx_opendirat_eq_some _ _ _ _ _).mp ho
    rw [resolve_config_path] at hres
    cases hres
    simp only [ho] at h
    cases hc : env.cancelled with
    | true => simp [hc] at h
    | false =>
      simp only [hc, Bool.false_eq_true, if_false, Prod.mk.injEq, true_and] at h
      rw [← h, lookup_foldl_remove _
        (fun n p node => decide (p = entriesDir ++ [n]) && isSlotEntryName bootversion n
          && isFileNode node && !env.unlink_fails p)
        (fun fs n p => clean_bootversion_step_lookup env bootversion entriesDir fs n p)]
      unfold entrySwept
      cases hcn : childName entriesDir p with
      | none =>
        have : ∀ n, p ≠ entriesDir ++ [n] := by
          intro n hn
          rw [(childName_eq_some _ _ _).mpr hn] at hcn
          cases hcn
        simp [this]
      | some n =>
        have hp := (childName_eq_some _ _ _).mp hcn
        subst hp
        simp only
        by_cases hk : (isSlotEntryName bootversion n
            && isFileNode (lookup fs (entriesDir ++ [n]))
            && !env.unlink_fails (entriesDir ++ [n])) = true
        · rw [if_pos hk, if_pos]
          rw [List.any_eq_true]
          refine ⟨n, ?_, ?_⟩
          · rw [mem_readdir]
            intro hnone
            simp [hnone, isFileNode] at hk
          · simpa using hk
        · rw [if_neg hk, if_neg]
          rw [List.any_eq_true]
          rintro ⟨m, -, hm⟩
          apply hk
          simp only [Bool.and_eq_true, decide_eq_true_eq] at hm
          obtain ⟨⟨⟨he, h1⟩, h2⟩, h3⟩ := hm
          have : m = n := by
            have := List.append_cancel_left he
            simpa using this.symm
          subst this
          simp [h1, h2, h3]

/-! ## Names of entry files -/

theorem slot_prefix_data (bootversion : Int) :
    ("ostree-" ++ fmt_d bootversion ++ "-").data
      = 'o' :: 's' :: 't' :: 'r' :: 'e' :: 'e' :: '-' :: ((fmt_d bootversion).data ++ ['-']) := by
  simp [String.data_append]

theorem dotfile_not_slot_entry (bootversion : Int) (n : String)
    (hdot : g_str_has_prefix n "." = true) : isSlotEntryName bootversion n = false := by
  unfold isSlotEntryName
  unfold g_str_has_prefix at hdot ⊢
  rw [slot_prefix_data]
  cases hn : n.data with
  | nil => simp [hn] at hdot
  | cons c cs =>
    rw [hn] at hdot
    have hc : '.' = c := by simpa [List.isPrefixOf] using hdot
    subst hc
    simp [List.isPrefixOf]

theorem fmt_d_zero : fmt_d 0 = "0" := by decide

theorem fmt_d_one : fmt_d 1 = "1" := by decide

theorem slot_entry_zero_not_one (n : String) (h : isSlotEntryName 0 n = true) :
    isSlotEntryName 1 n = false := by
  unfold isSlotEntryName g_str_has_prefix at h ⊢
  rw [slot_prefix_data, fmt_d_zero] at h
  rw [slot_prefix_data, fmt_d_one]
  rcases hn : n.data with _ | ⟨c1, _ | ⟨c2, _ | ⟨c3, _ | ⟨c4, _ | ⟨c5, _ | ⟨c6, _ | ⟨c7, _ | ⟨c8, cs⟩⟩⟩⟩⟩⟩⟩⟩ <;>
    rw [hn] at h <;> simp [List.isPrefixOf] at h ⊢
  obtain ⟨⟨h1, h2, h3, h4, h5, h6, h7, h8, -⟩, -⟩ := h
  subst h8
  simp

theorem slot_entry_one_not_zero (n : String) (h : isSlotEntryName 1 n = true) :
    isSlotEntryName 0 n = false := by
  cases h0 : isSlotEntryName 0 n with
  | false => rfl
  | true => rw [slot_entry_zero_not_one n h0] at h; cases h

theorem entrySwept_child (env : Env) (bootversion : Int) (fs : FS) (n : String) :
    entrySwept env bootversion fs (entriesDir ++ [n])
      = (isSlotEntryName bootversion n && isFileNode (lookup fs (entriesDir ++ [n]))
          && !env.unlink_fails (entriesDir ++ [n])) := by
  unfold entrySwept
  rw [(childName_eq_some entriesDir (entriesDir ++ [n]) n).mpr rfl]

theorem entrySwept_not_child (env : Env) (bootversion : Int) (fs : FS) (p : Path)
    (h : ∀ n, p ≠ entriesDir ++ [n]) : entrySwept env bootversion fs p = false := by
  unfold entrySwept
  cases hcn : childName entriesDir p with
  | none => rfl
  | some n => exact absurd ((childName_eq_some _ _ _).mp hcn) (h n)

/-- C8: when `clean_bootversion` succeeds and no unlink is refused, a regular
file of the loader-entries directory is removed iff its name has prefix
`ostree-<slot>-` and suffix `.conf`; directories, dotfiles, names that do not
match (for slots 0 and 1 the entry files of the other slot among them) and
every path that is not a direct entry of the directory are left as they were. -/
theorem sweep_entries_effect (env : Env) (bootversion : Int) (fs fs1 : FS)
    (h : clean_bootversion env bootversion fs = (true, fs1))
    (hun : ∀ p, env.unlink_fails p = false) :
    (∀ n c, lookup fs (entriesDir ++ [n]) = some (Node.file c) →
      (lookup fs1 (entriesDir ++ [n]) = none ↔ isSlotEntryName bootversion n = true)) ∧
    (∀ n, lookup fs (entriesDir ++ [n]) = some Node.dir →
      lookup fs1 (entriesDir ++ [n]) = some Node.dir) ∧
    (∀ n, g_str_has_prefix n "." = true →
      lookup fs1 (entriesDir ++ [n]) = lookup fs (entriesDir ++ [n])) ∧
    (∀ n, isSlotEntryName bootversion n = false →
      lookup fs1 (entriesDir ++ [n]) = lookup fs (entriesDir ++ [n])) ∧
    (∀ n, (bootversion = 0 ∨ bootversion = 1) → isSlotEntryName (1 - bootversion) n = true →
      lookup fs1 (entriesDir ++ [n]) = lookup fs (entriesDir ++ [n])) ∧
    (∀ p, (∀ n, p ≠ entriesDir ++ [n]) → lookup fs1 p = lookup fs p) := by
  have key := clean_bootversion_lookup env bootversion fs fs1 h
  have hno : ∀ n, isSlotEntryName bootversion n = false →
      lookup fs1 (entriesDir ++ [n]) = lookup fs (entriesDir ++ [n]) := by
    intro n hn
    rw [key, entrySwept_child, hn]
    simp
  refine ⟨?_, ?_, ?_, hno, ?_, ?_⟩
  · intro n c hc
    rw [key, entrySwept_child, hc, hun]
    cases hs : isSlotEntryName bootversion n <;> simp [isFileNode]
  · intro n hd
    rw [key, entrySwept_child, hd]
    simp [isFileNode, hd]
  · intro n hdot
    exact hno n (dotfile_not_slot_entry bootversion n hdot)
  · intro n hb hother
    apply hno
    rcases hb with hb | hb
    · subst hb
      exact slot_entry_one_not_zero n hother
    · subst hb
      exact slot_entry_zero_not_one n hother
  · intro p hp
    rw [key, entrySwept_not_child env bootversion fs p hp]
    simp

/-- C8, witness: sweeping slot 0 in a directory that also holds an entry file of slot 1. -/
theorem sweep_entries_effect_witness :
    clean_bootversion (quietEnv []) 0 mixedEntriesFs
      = (true, (clean_bootversion (quietEnv []) 0 mixedEntriesFs).2) ∧
    lookup (clean_bootversion (quietEnv []) 0 mixedEntriesFs).2
      (entriesDir ++ ["ostree-1-2.0.conf"]) = lookup mixedEntriesFs
      (entriesDir ++ ["ostree-1-2.0.conf"]) :=
  ⟨by decide,
   (sweep_entries_effect (quietEnv []) 0 mixedEntriesFs
      (clean_bootversion (quietEnv []) 0 mixedEntriesFs).2 (by decide)
      (fun _ => rfl)).2.2.2.2.1 "ostree-1-2.0.conf" (Or.inl rfl) (by decide)⟩

theorem isPrefixOf_child (root : Path) (n : String) (p : Path) :
    (root ++ [n]).isPrefixOf p = true ↔
      root.isPrefixOf p = true ∧ (p.drop root.length).head? = some n := by
  rw [List.isPrefixOf_iff_prefix, List.isPrefixOf_iff_prefix]
  constructor
  · rintro ⟨t, rfl⟩
    refine ⟨⟨[n] ++ t, by simp⟩, ?_⟩
    simp
  · rintro ⟨⟨s, rfl⟩, hh⟩
    simp only [List.drop_left] at hh
    cases s with
    | nil => simp at hh
    | cons m t =>
      simp only [List.head?_cons, Option.some.injEq] at hh
      subst hh
      exact ⟨t, by simp⟩

theorem clean_bootdata_step_lookup (env : Env) (active : List String) (fd : Path) (fs : FS)
    (n : String) (p : Path) :
    lookup (clean_bootdata_step env active fd fs n) p
      = if ((fd ++ [n]).isPrefixOf p && !active.contains n
            && !(env.cancelled || env.rm_rf_fails (fd ++ [n]))) then none else lookup fs p := by
  unfold clean_bootdata_step glnx_shutil_rm_rf_at
  cases ha : active.contains n with
  | true => simp
  | false =>
    cases hc : env.cancelled with
    | true => simp
    | false =>
      cases hf : env.rm_rf_fails (fd ++ [n]) with
      | true => simp
      | false =>
        simp only [Bool.false_eq_true, or_self, if_false, Bool.not_false, Bool.and_true,
          Bool.or_false]
        rw [lookup_eraseTree]

theorem clean_bootdata_eq_true (env : Env) (active : List String) (fs fs1 : FS)
    (h : clean_bootdata env active fs = (true, fs1)) :
    lookup fs payloadRoot = some Node.dir ∧ env.open_fails payloadRoot = false ∧
      env.cancelled = false ∧
      fs1 = (readdir fs payloadRoot).foldl (clean_bootdata_step env active payloadRoot) fs := by
  unfold clean_bootdata at h
  cases ho : glnx_opendirat env fs [] "boot/efi/ostree" with
  | none => simp [ho] at h
  | some fd =>
    obtain ⟨hres, hd, hof⟩ := (glnx_opendirat_eq_some _ _ _ _ _).mp ho
    rw [resolve_payload_root] at hres
    cases hres
    simp only [ho] at h
    cases hc : env.cancelled with
    | true => simp [hc] at h
    | false =>
      simp only [hc, Bool.false_eq_true, if_false, Prod.mk.injEq, true_and] at h
      exact ⟨hd, hof, rfl, h.symm⟩

theorem clean_bootdata_lookup (env : Env) (active : List String) (fs fs1 : FS)
    (h : clean_bootdata env active fs = (true, fs1)) (p : Path) :
    lookup fs1 p = if payloadSwept env active fs p then none else lookup fs p := by
  obtain ⟨-, -, hc, rfl⟩ := clean_bootdata_eq_true env active fs fs1 h
  rw [lookup_foldl_remove _
    (fun n p _ => (payloadRoot ++ [n]).isPrefixOf p && !active.contains n
      && !(env.cancelled || env.rm_rf_fails (payloadRoot ++ [n])))
    (fun fs n p => clean_bootdata_step_lookup env active payloadRoot fs n p)]
  unfold payloadSwept
  cases hh : (p.drop payloadRoot.length).head? with
  | none =>
    simp only
    rw [if_neg]
    · simp
    · rw [List.any_eq_true]
      rintro ⟨m, -, hm⟩
      simp only [Bool.and_eq_true] at hm
      have := ((isPrefixOf_child payloadRoot m p).mp hm.1.1).2
      rw [hh] at this
      cases this
  | some n =>
    simp only
    by_cases hk : (payloadRoot.isPrefixOf p && !active.contains n
        && !env.rm_rf_fails (payloadRoot ++ [n])
        && (lookup fs (payloadRoot ++ [n])).isSome) = true
    · rw [if_pos hk, if_pos]
      rw [List.any_eq_true]
      simp only [Bool.and_eq_true] at hk
      obtain ⟨⟨⟨h1, h2⟩, h3⟩, h4⟩ := hk
      refine ⟨n, ?_, ?_⟩
      · rw [mem_readdir]
        intro hnone
        simp [hnone] at h4
      · have hpre := (isPrefixOf_child payloadRoot n p).mpr ⟨h1, hh⟩
        simp only [Bool.and_eq_true]
        refine ⟨⟨hpre, h2⟩, ?_⟩
        simpa [hc] using h3
    · rw [if_neg hk, if_neg]
      rw [List.any_eq_true]
      rintro ⟨m, hmem, hm⟩
      apply hk
      simp only [Bool.and_eq_true] at hm
      obtain ⟨⟨h1, h2⟩, h3⟩ := hm
      obtain ⟨hpre, hhead⟩ := (isPrefixOf_child payloadRoot m p).mp h1
      rw [hh] at hhead
      cases hhead
      have hex := (mem_readdir fs payloadRoot n).mp hmem
      have h3b : env.rm_rf_fails (payloadRoot ++ [n]) = false := by
        simpa [hc] using h3
      simp only [Bool.and_eq_true]
      refine ⟨⟨⟨hpre, h2⟩, by simp [h3b]⟩, ?_⟩
      cases hl : lookup fs (payloadRoot ++ [n]) with
      | none => exact absurd hl hex
      | some _ => rfl

/-! ## Staging and writing only add -/

theorem grows_refl (fs : FS) : grows fs fs := fun _ h => ⟨h, rfl⟩

theorem grows_trans {a b c : FS} (h1 : grows a b) (h2 : grows b c) : grows a c := by
  intro p hp
  obtain ⟨hb, hk⟩ := h1 p hp
  obtain ⟨hc, hk2⟩ := h2 p hb
  exact ⟨hc, hk2.trans hk⟩

theorem grows_cons_new (fs : FS) (d : Path) (n : Node) (h : lookup fs d = none) :
    grows fs ((d, n) :: fs) := by
  intro p hp
  have hne : d ≠ p := by
    intro e; subst e; exact hp h
  rw [lookup_cons, if_neg hne]
  exact ⟨hp, rfl⟩

theorem mkdirChain_grows (todo : List String) (fs : FS) (cur : Path) (fs1 : FS)
    (h : mkdirChain fs cur todo = some fs1) : grows fs fs1 := by
  induction todo generalizing fs cur with
  | nil =>
    simp only [mkdirChain, Option.some.injEq] at h
    subst h
    exact grows_refl fs
  | cons c cs ih =>
    unfold mkdirChain at h
    cases hl : lookup fs (cur ++ [c]) with
    | none =>
      simp only [hl] at h
      exact grows_trans (grows_cons_new fs _ _ hl) (ih _ _ h)
    | some m =>
      cases m with
      | dir =>
        simp only [hl] at h
        exact ih _ _ h
      | file x => simp [hl] at h

theorem glnx_shutil_mkdir_p_at_eq_some (env : Env) (fs : FS) (dfd : Path) (path : String)
    (fs1 : FS) (h : glnx_shutil_mkdir_p_at env fs dfd path = some fs1) :
    ∃ p, resolve dfd path = some p ∧ mkdirChain fs [] p = some fs1 := by
  unfold glnx_shutil_mkdir_p_at at h
  cases hc : env.cancelled with
  | true => simp [hc] at h
  | false =>
    simp only [hc, Bool.false_eq_true, if_false] at h
    cases hr : resolve dfd path with
    | none => simp [hr] at h
    | some p =>
      simp only [hr] at h
      cases hm : env.mkdir_fails p with
      | true => simp [hm] at h
      | false =>
        simp only [hm, Bool.false_eq_true, if_false] at h
        exact ⟨p, rfl, h⟩

theorem glnx_shutil_mkdir_p_at_grows (env : Env) (fs : FS) (dfd : Path) (path : String)
    (fs1 : FS) (h : glnx_shutil_mkdir_p_at env fs dfd path = some fs1) : grows fs fs1 := by
  obtain ⟨p, -, hm⟩ := glnx_shutil_mkdir_p_at_eq_some env fs dfd path fs1 h
  exact mkdirChain_grows p fs [] fs1 hm

theorem glnx_file_copy_at_grows (env : Env) (fs : FS) (sd : Path) (src : String) (dd : Path)
    (dest : String) (fs2 : FS) (h : glnx_file_copy_at env fs sd src dd dest = some fs2) :
    grows fs fs2 := by
  obtain ⟨s, d, c, -, -, -, hd, -, rfl⟩ := glnx_file_copy_at_eq_some _ _ _ _ _ _ _ h
  exact grows_cons_new fs d _ hd

theorem write_at_grows (env : Env) (fs : FS) (config : BootEntryConfig) (dfd : Path)
    (name : String) (fs2 : FS)
    (h : ostree_bootconfig_parser_write_at env fs config dfd name = some fs2) :
    grows fs fs2 := by
  obtain ⟨p, -, hnd, -, rfl⟩ := write_at_eq_some _ _ _ _ _ _ h
  intro q hq
  rw [lookup_cons, lookup_erasePath]
  by_cases hpq : p = q
  · subst hpq
    simp only [if_true]
    refine ⟨by simp, ?_⟩
    cases hl : lookup fs p with
    | none => exact absurd hl hq
    | some m =>
      cases m with
      | dir => exact absurd hl hnd
      | file x => rfl
  · have hqp : q ≠ p := fun e => hpq e.symm
    rw [if_neg hpq, if_neg hqp]
    exact ⟨hq, rfl⟩

theorem do_copy_if_needed_grows (env : Env) (relpath : Option String) (bootfd efifd : Path)
    (fs : FS) : grows fs (do_copy_if_needed env relpath bootfd efifd fs).fs := by
  cases relpath with
  | none => exact grows_refl fs
  | some r =>
    simp only [do_copy_if_needed]
    cases hst : fstatat env fs efifd (skipLeadingSlash r) with
    | found => exact grows_refl fs
    | failed => exact grows_refl fs
    | enoent =>
      simp only
      cases hmk : glnx_shutil_mkdir_p_at env fs efifd (g_path_get_dirname (skipLeadingSlash r)) with
      | none => exact grows_refl fs
      | some fs1 =>
        simp only
        have g1 := glnx_shutil_mkdir_p_at_grows _ _ _ _ _ hmk
        cases hcp : glnx_file_copy_at env fs1 bootfd (skipLeadingSlash r) efifd
            (skipLeadingSlash r) with
        | none => exact g1
        | some fs2 => exact grows_trans g1 (glnx_file_copy_at_grows _ _ _ _ _ _ _ hcp)

theorem deploy_boot_data_grows (env : Env) (config : BootEntryConfig) (fs : FS) :
    grows fs (deploy_boot_data env config fs).2 := by
  unfold deploy_boot_data
  cases hb : glnx_opendirat env fs [] "boot" with
  | none => exact grows_refl fs
  | some bootfd =>
    cases he : glnx_opendirat env fs [] "boot/efi" with
    | none => exact grows_refl fs
    | some efifd =>
      simp only
      have g1 := do_copy_if_needed_grows env (some config.linux) bootfd efifd fs
      split
      · exact g1
      · split
        · exact grows_trans g1 (do_copy_if_needed_grows env config.initrd bootfd efifd _)
        · exact grows_trans g1 (do_copy_if_needed_grows env config.initrd bootfd efifd _)

theorem write_out_boot_config_grows (env : Env) (config : BootEntryConfig) (bootversion : Int)
    (fs : FS) : grows fs (write_out_boot_config env config bootversion fs).2 := by
  unfold write_out_boot_config
  cases hb : glnx_opendirat env fs [] config_path with
  | none => exact grows_refl fs
  | some fd =>
    simp only
    cases hw : ostree_bootconfig_parser_write_at env fs config fd
        (entryFileName bootversion config.version) with
    | none => exact grows_refl fs
    | some fs1 => exact write_at_grows _ _ _ _ _ _ hw

theorem write_config_loop_grows (env : Env) (bootversion : Int) (L : List BootEntryConfig)
    (active : List String) (fs : FS) :
    grows fs (write_config_loop env bootversion L active fs).2.1 := by
  induction L generalizing active fs with
  | nil => exact grows_refl fs
  | cons config rest ih =>
    unfold write_config_loop
    simp only
    have g1 := deploy_boot_data_grows env config fs
    split
    · exact g1
    · have g2 := write_out_boot_config_grows env config bootversion (deploy_boot_data env config fs).2
      split
      · exact grows_trans g1 g2
      · exact grows_trans (grows_trans g1 g2) (ih _ _)

theorem write_config_loop_active (env : Env) (bootversion : Int) (L : List BootEntryConfig)
    (active : List String) (fs : FS)
    (h : (write_config_loop env bootversion L active fs).1 = none) (k : String) :
    k ∈ (write_config_loop env bootversion L active fs).2.2 ↔
      k ∈ active ∨ ∃ e ∈ L, k = bootdataKey e := by
  induction L generalizing active fs with
  | nil => simp [write_config_loop]
  | cons config rest ih =>
    unfold write_config_loop at h ⊢
    simp only at h ⊢
    split at h
    · cases h
    · rename_i hd
      rw [if_neg hd]
      split at h
      · cases h
      · rename_i hw
        rw [if_neg hw, ih _ _ h]
        cases hc : active.contains (bootdataKey config) with
        | true =>
          have hmem : bootdataKey config ∈ active := by simpa using hc
          simp only [if_true, List.mem_cons, exists_eq_or_imp]
          constructor
          · rintro (h1 | ⟨e, he, rfl⟩)
            · exact Or.inl h1
            · exact Or.inr (Or.inr ⟨e, he, rfl⟩)
          · rintro (h1 | h1 | ⟨e, he, rfl⟩)
            · exact Or.inl h1
            · subst h1; exact Or.inl hmem
            · exact Or.inr ⟨e, he, rfl⟩
        | false =>
          simp only [Bool.false_eq_true, if_false, List.mem_cons, exists_eq_or_imp]
          constructor
          · rintro ((h1 | h1) | ⟨e, he, rfl⟩)
            · exact Or.inr (Or.inl h1)
            · exact Or.inl h1
            · exact Or.inr (Or.inr ⟨e, he, rfl⟩)
          · rintro (h1 | h1 | ⟨e, he, rfl⟩)
            · exact Or.inl (Or.inr h1)
            · exact Or.inl (Or.inl h1)
            · exact Or.inr ⟨e, he, rfl⟩

/-! ## The whole of `write_config` -/

theorem write_config_success (env : Env) (bootversion : Int) (fs : FS)
    (h : (_ostree_bootloader_sd_boot_write_config env bootversion fs).1 = none) :
    ∃ fs0 L fs2,
      clean_bootversion env bootversion fs = (true, fs0) ∧
      _ostree_sysroot_read_boot_loader_configs env bootversion = some L ∧
      (write_config_loop env bootversion L [] fs0).1 = none ∧
      clean_bootversion env (if bootversion = 0 then 1 else 0)
        (write_config_loop env bootversion L [] fs0).2.1 = (true, fs2) ∧
      clean_bootdata env (write_config_loop env bootversion L [] fs0).2.2 fs2
        = (true, (_ostree_bootloader_sd_boot_write_config env bootversion fs).2) := by
  unfold _ostree_bootloader_sd_boot_write_config at h ⊢
  simp only at h ⊢
  cases hc1 : clean_bootversion env bootversion fs with
  | mk ok1 fs0 =>
    rw [hc1] at h
    simp only at h ⊢
    cases ok1 with
    | false => simp at h
    | true =>
      simp only [Bool.true_eq_false, if_false] at h ⊢
      cases hf : _ostree_sysroot_read_boot_loader_configs env bootversion with
      | none => simp [hf] at h
      | some L =>
        simp only [hf] at h ⊢
        cases hl : (write_config_loop env bootversion L [] fs0).1 with
        | some f => simp [hl] at h
        | none =>
          simp only [hl] at h ⊢
          cases hc2 : clean_bootversion env (if bootversion = 0 then 1 else 0)
              (write_config_loop env bootversion L [] fs0).2.1 with
          | mk ok2 fs2 =>
            rw [hc2] at h
            simp only at h ⊢
            cases ok2 with
            | false => simp at h
            | true =>
              simp only [Bool.true_eq_false, if_false] at h ⊢
              cases hc3 : clean_bootdata env (write_config_loop env bootversion L [] fs0).2.2
                  fs2 with
              | mk ok3 fs3 =>
                rw [hc3] at h
                simp only at h ⊢
                cases ok3 with
                | false => simp at h
                | true =>
                  simp only [Bool.true_eq_false, if_false]
                  exact ⟨fs0, L, fs2, rfl, rfl, hl, hc2, hc3⟩

theorem payload_child_not_entry (n m : String) : payloadRoot ++ [n] ≠ entriesDir ++ [m] := by
  intro h
  have := congrArg List.length h
  simp [payloadRoot, entriesDir] at this

theorem payloadSwept_child (env : Env) (active : List String) (fs : FS) (n : String) :
    payloadSwept env active fs (payloadRoot ++ [n])
      = (!active.contains n && !env.rm_rf_fails (payloadRoot ++ [n])
          && (lookup fs (payloadRoot ++ [n])).isSome) := by
  unfold payloadSwept
  have h1 : ((payloadRoot ++ [n]).drop payloadRoot.length).head? = some n := by simp
  have h2 : payloadRoot.isPrefixOf (payloadRoot ++ [n]) = true := by
    rw [List.isPrefixOf_iff_prefix]; exact List.prefix_append _ _
  rw [h1]
  simp only [h2, Bool.true_and]

/-- C1: when `write_config` succeeds with entries `L` and no recursive removal
is refused, an entry of the payload root `boot/efi/ostree` that existed before
the call exists after it iff its name is the basename of the parent directory
of the `linux` path of some entry of `L`. -/
theorem payload_kept_iff_referenced (env : Env) (bootversion : Int) (fs : FS)
    (L : List BootEntryConfig)
    (hfetch : _ostree_sysroot_read_boot_loader_configs env bootversion = some L)
    (hok : (_ostree_bootloader_sd_boot_write_config env bootversion fs).1 = none)
    (hrm : ∀ p, env.rm_rf_fails p = false)
    (n : String) (hbefore : lookup fs (payloadRoot ++ [n]) ≠ none) :
    lookup (_ostree_bootloader_sd_boot_write_config env bootversion fs).2 (payloadRoot ++ [n])
        ≠ none ↔
      ∃ e ∈ L, n = g_path_get_basename (g_path_get_dirname e.linux) := by
  obtain ⟨fs0, L1, fs2, hc1, hf, hl, hc2, hc3⟩ := write_config_success env bootversion fs hok
  rw [hfetch] at hf
  cases hf
  have e0 : lookup fs0 (payloadRoot ++ [n]) = lookup fs (payloadRoot ++ [n]) := by
    rw [clean_bootversion_lookup _ _ _ _ hc1,
      entrySwept_not_child _ _ _ _ (fun m => payload_child_not_entry n m)]
    simp
  have e1 : lookup (write_config_loop env bootversion L [] fs0).2.1 (payloadRoot ++ [n])
      ≠ none :=
    (write_config_loop_grows env bootversion L [] fs0 _ (by rw [e0]; exact hbefore)).1
  have e2 : lookup fs2 (payloadRoot ++ [n])
      = lookup (write_config_loop env bootversion L [] fs0).2.1 (payloadRoot ++ [n]) := by
    rw [clean_bootversion_lookup _ _ _ _ hc2,
      entrySwept_not_child _ _ _ _ (fun m => payload_child_not_entry n m)]
    simp
  rw [← e2] at e1
  rw [clean_bootdata_lookup _ _ _ _ hc3, payloadSwept_child, hrm]
  have hact := write_config_loop_active env bootversion L [] fs0 hl n
  simp only [List.not_mem_nil, false_or] at hact
  cases hs : lookup fs2 (payloadRoot ++ [n]) with
  | none => exact absurd hs e1
  | some node =>
    simp only [Bool.not_false, Bool.and_true, Option.isSome_some]
    by_cases hc : n ∈ (write_config_loop env bootversion L [] fs0).2.2
    · have : (write_config_loop env bootversion L [] fs0).2.2.contains n = true := by
        simpa using hc
      simp only [this, Bool.not_true, Bool.false_eq_true, if_false, ne_eq, reduceCtorEq,
        not_false_eq_true, true_iff]
      exact hact.mp hc
    · have : (write_config_loop env bootversion L [] fs0).2.2.contains n = false := by
        simpa using hc
      simp only [this, Bool.not_false, if_true, ne_eq, not_true_eq_false, false_iff]
      exact fun hex => hc (hact.mpr hex)

/-- C1, witness: the payload directory `stale` when deployment `abc123` is written. -/
theorem payload_kept_iff_referenced_witness :
    _ostree_sysroot_read_boot_loader_configs (quietEnv [ostreeEntry]) 0 = some [ostreeEntry] ∧
    (_ostree_bootloader_sd_boot_write_config (quietEnv [ostreeEntry]) 0 ostreeFs).1 = none ∧
    lookup ostreeFs (payloadRoot ++ ["stale"]) ≠ none ∧
    (lookup (_ostree_bootloader_sd_boot_write_config (quietEnv [ostreeEntry]) 0 ostreeFs).2
        (payloadRoot ++ ["stale"]) ≠ none ↔
      ∃ e ∈ [ostreeEntry], "stale" = g_path_get_basename (g_path_get_dirname e.linux)) :=
  ⟨rfl, by decide, by decide,
   payload_kept_iff_referenced (quietEnv [ostreeEntry]) 0 ostreeFs [ostreeEntry] rfl
     (by decide) (fun _ => rfl) "stale" (by decide)⟩

theorem write_config_loop_failure (env : Env) (bootversion : Int) (L : List BootEntryConfig)
    (active : List String) (fs : FS) (f : Failure)
    (h : (write_config_loop env bootversion L active fs).1 = some f) :
    f = Failure.stage ∨ f = Failure.write_entry := by
  induction L generalizing active fs with
  | nil => simp [write_config_loop] at h
  | cons config rest ih =>
    unfold write_config_loop at h
    simp only at h
    split at h
    · simp only [Option.some.injEq] at h
      exact Or.inl h.symm
    · split at h
      · simp only [Option.some.injEq] at h
        exact Or.inr h.symm
      · exact ih _ _ h

theorem write_config_early_failure (env : Env) (bootversion : Int) (fs : FS) (f : Failure)
    (h : (_ostree_bootloader_sd_boot_write_config env bootversion fs).1 = some f)
    (hf : f = Failure.fetch ∨ f = Failure.stage ∨ f = Failure.write_entry) :
    ∃ fs0, clean_bootversion env bootversion fs = (true, fs0) ∧
      grows fs0 (_ostree_bootloader_sd_boot_write_config env bootversion fs).2 := by
  unfold _ostree_bootloader_sd_boot_write_config at h ⊢
  simp only at h ⊢
  cases hc1 : clean_bootversion env bootversion fs with
  | mk ok1 fs0 =>
    rw [hc1] at h
    simp only at h ⊢
    cases ok1 with
    | false =>
      simp only [if_true, Option.some.injEq] at h
      subst h
      rcases hf with hf | hf | hf <;> cases hf
    | true =>
      simp only [Bool.true_eq_false, if_false] at h ⊢
      refine ⟨fs0, rfl, ?_⟩
      cases hfe : _ostree_sysroot_read_boot_loader_configs env bootversion with
      | none => exact grows_refl fs0
      | some L =>
        simp only [hfe] at h ⊢
        have hg := write_config_loop_grows env bootversion L [] fs0
        cases hl : (write_config_loop env bootversion L [] fs0).1 with
        | some f1 => exact hg
        | none =>
          exfalso
          simp only [hl] at h
          generalize (if bootversion = 0 then (1 : Int) else 0) = opp at h
          split at h
          · have h1 : Failure.sweep_opposite = f := by simpa using h
            subst h1
            rcases hf with hf | hf | hf <;> cases hf
          · split at h
            · have h1 : Failure.sweep_payload = f := by simpa using h
              subst h1
              rcases hf with hf | hf | hf <;> cases hf
            · simp at h

/-- C10: for slot 0 or 1, when `write_config` returns FALSE because fetching
the entries, staging or writing an entry file failed, every entry file of the
other slot and every entry of the payload root `boot/efi/ostree` that existed
before the call still exists after it. -/
theorem failure_keeps_previous_generation (env : Env) (bootversion : Int) (fs : FS)
    (f : Failure) (hslot : bootversion = 0 ∨ bootversion = 1)
    (hres : (_ostree_bootloader_sd_boot_write_config env bootversion fs).1 = some f)
    (hf : f = Failure.fetch ∨ f = Failure.stage ∨ f = Failure.write_entry) :
    (∀ n, isSlotEntryName (1 - bootversion) n = true →
      lookup fs (entriesDir ++ [n]) ≠ none →
      lookup (_ostree_bootloader_sd_boot_write_config env bootversion fs).2
        (entriesDir ++ [n]) ≠ none) ∧
    (∀ n, lookup fs (payloadRoot ++ [n]) ≠ none →
      lookup (_ostree_bootloader_sd_boot_write_config env bootversion fs).2
        (payloadRoot ++ [n]) ≠ none) := by
  obtain ⟨fs0, hc1, hg⟩ := write_config_early_failure env bootversion fs f hres hf
  constructor
  · intro n hother hex
    apply (hg _ _).1
    rw [clean_bootversion_lookup _ _ _ _ hc1, entrySwept_child]
    have : isSlotEntryName bootversion n = false := by
      rcases hslot with hb | hb
      · subst hb; exact slot_entry_one_not_zero n hother
      · subst hb; exact slot_entry_zero_not_one n hother
    rw [this]
    simpa using hex
  · intro n hex
    apply (hg _ _).1
    rw [clean_bootversion_lookup _ _ _ _ hc1,
      entrySwept_not_child _ _ _ _ (fun m => payload_child_not_entry n m)]
    simpa using hex

/-- C10, witness: staging fails for a kernel missing from the staging area. -/
theorem failure_keeps_previous_generation_witness :
    (_ostree_bootloader_sd_boot_write_config (quietEnv [missingKernelEntry]) 0 ostreeFs).1
      = some Failure.stage ∧
    lookup (_ostree_bootloader_sd_boot_write_config (quietEnv [missingKernelEntry]) 0
      ostreeFs).2 (entriesDir ++ ["ostree-1-1.conf"]) ≠ none ∧
    lookup (_ostree_bootloader_sd_boot_write_config (quietEnv [missingKernelEntry]) 0
      ostreeFs).2 (payloadRoot ++ ["stale"]) ≠ none :=
  ⟨by decide,
   (failure_keeps_previous_generation (quietEnv [missingKernelEntry]) 0 ostreeFs Failure.stage
      (Or.inl rfl) (by decide) (Or.inr (Or.inl rfl))).1 "ostree-1-1.conf" (by decide)
      (by decide),
   (failure_keeps_previous_generation (quietEnv [missingKernelEntry]) 0 ostreeFs Failure.stage
      (Or.inl rfl) (by decide) (Or.inr (Or.inl rfl))).2 "stale" (by decide)⟩

/-! ## Paths of the form `/ostree/<b>/<file>` -/

theorem splitSlash_no_slash (a : List Char) (h : '/' ∉ a) : splitSlash a = [a] := by
  induction a with
  | nil => rfl
  | cons c cs ih =>
    have hc : c ≠ '/' := fun e => h (by simp [e])
    have hcs : '/' ∉ cs := fun e => h (List.mem_cons_of_mem _ e)
    simp [splitSlash, hc, ih hcs]

theorem splitSlash_append_slash (a rest : List Char) (h : '/' ∉ a) :
    splitSlash (a ++ '/' :: rest) = a :: splitSlash rest := by
  induction a with
  | nil => simp [splitSlash]
  | cons c cs ih =>
    have hc : c ≠ '/' := fun e => h (by simp [e])
    have hcs : '/' ∉ cs := fun e => h (List.mem_cons_of_mem _ e)
    simp [splitSlash, hc, ih hcs]

theorem dropWhile_append_stop (p : Char → Bool) (a : List Char) (x : Char) (r : List Char)
    (ha : ∀ c ∈ a, p c = true) (hx : p x = false) :
    (a ++ x :: r).dropWhile p = x :: r := by
  induction a with
  | nil => simp [List.dropWhile, hx]
  | cons c cs ih =>
    have hc : p c = true := ha c (by simp)
    simp only [List.cons_append, List.dropWhile_cons, hc, if_true]
    exact ih (fun d hd => ha d (List.mem_cons_of_mem _ hd))

theorem takeWhile_append_stop (p : Char → Bool) (a : List Char) (x : Char) (r : List Char)
    (ha : ∀ c ∈ a, p c = true) (hx : p x = false) :
    (a ++ x :: r).takeWhile p = a := by
  induction a with
  | nil => simp [List.takeWhile, hx]
  | cons c cs ih =>
    have hc : p c = true := ha c (by simp)
    simp only [List.cons_append, List.takeWhile_cons, hc, if_true]
    rw [ih (fun d hd => ha d (List.mem_cons_of_mem _ hd))]

theorem ostree_linux_data (b f : String) :
    ("/ostree/" ++ b ++ "/" ++ f).data
      = '/' :: ('o' :: 's' :: 't' :: 'r' :: 'e' :: 'e' :: '/' :: (b.data ++ '/' :: f.data)) := by
  simp [String.data_append]

theorem skipLeadingSlash_ostree (b f : String) :
    (skipLeadingSlash ("/ostree/" ++ b ++ "/" ++ f)).data
      = 'o' :: 's' :: 't' :: 'r' :: 'e' :: 'e' :: '/' :: (b.data ++ '/' :: f.data) := by
  unfold skipLeadingSlash
  rw [ostree_linux_data]
  split
  · rename_i rest heq
    simp only [List.cons.injEq, true_and] at heq
    rw [← heq]
  · rename_i hno
    exact absurd rfl (hno _)

theorem components_ostree (s b f : String) (hb : plainName b) (hf : plainName f)
    (hs : s.data = 'o' :: 's' :: 't' :: 'r' :: 'e' :: 'e' :: '/' :: (b.data ++ '/' :: f.data)) :
    components s = ["ostree", b, f] := by
  unfold components
  have h1 : splitSlash s.data = ['o', 's', 't', 'r', 'e', 'e'] :: [b.data, f.data] := by
    rw [hs]
    have := splitSlash_append_slash ['o', 's', 't', 'r', 'e', 'e'] (b.data ++ '/' :: f.data)
      (by decide)
    simp only [List.cons_append, List.nil_append] at this
    rw [this, splitSlash_append_slash b.data f.data hb.2.1, splitSlash_no_slash f.data hf.2.1]
  rw [h1]
  have hb1 : b.data.isEmpty = false := by
    cases h : b.data with
    | nil => exact absurd h hb.1
    | cons _ _ => rfl
  have hf1 : f.data.isEmpty = false := by
    cases h : f.data with
    | nil => exact absurd h hf.1
    | cons _ _ => rfl
  simp [List.filter, hb1, hf1]

theorem resolve_ostree (dfd : Path) (s b f : String) (hb : plainName b) (hf : plainName f)
    (hs : s.data = 'o' :: 's' :: 't' :: 'r' :: 'e' :: 'e' :: '/' :: (b.data ++ '/' :: f.data)) :
    resolve dfd s = some (dfd ++ ["ostree", b, f]) := by
  unfold resolve
  have hne : s ≠ "" := by
    intro e
    rw [e] at hs
    cases hs
  rw [if_neg hne, components_ostree s b f hb hf hs]
  have h1 : ("ostree" : String) ≠ "." := by decide
  have h2 : ("ostree" : String) ≠ ".." := by decide
  simp [walk, h1, h2, hb.2.2.1, hb.2.2.2, hf.2.2.1, hf.2.2.2]

theorem bootdataKey_ostree (config : BootEntryConfig) (b f : String) (hb : plainName b)
    (hf : plainName f) (hl : config.linux = "/ostree/" ++ b ++ "/" ++ f) :
    bootdataKey config = b := by
  unfold bootdataKey
  rw [hl]
  have hbrev : ∀ c ∈ b.data.reverse, c ≠ '/' := by
    intro c hc e
    subst e
    exact hb.2.1 (List.mem_reverse.mp hc)
  have hfrev : ∀ c ∈ f.data.reverse, c ≠ '/' := by
    intro c hc e
    subst e
    exact hf.2.1 (List.mem_reverse.mp hc)
  obtain ⟨x, xs, hx⟩ : ∃ x xs, b.data.reverse = x :: xs := by
    cases h : b.data.reverse with
    | nil => exact absurd (List.reverse_eq_nil_iff.mp h) hb.1
    | cons x xs => exact ⟨x, xs, rfl⟩
  have hxne : x ≠ '/' := hbrev x (by rw [hx]; simp)
  have hdir : g_path_get_dirname ("/ostree/" ++ b ++ "/" ++ f) = "/ostree/" ++ b := by
    unfold g_path_get_dirname
    have hrev : ("/ostree/" ++ b ++ "/" ++ f).data.reverse
        = f.data.reverse ++ '/' :: (b.data.reverse ++ ['/', 'e', 'e', 'r', 't', 's', 'o', '/']) := by
      rw [ostree_linux_data]
      simp
    rw [hrev, dropWhile_append_stop _ _ _ _ (fun c hc => by simpa using hfrev c hc) (by simp)]
    simp only [List.dropWhile_cons, decide_True, if_true, hx, List.cons_append]
    simp only [hxne, decide_False, Bool.false_eq_true, if_false, reduceCtorEq]
    rw [← List.cons_append, ← hx]
    apply String.ext
    simp [String.data_append]
  rw [hdir]
  unfold g_path_get_basename
  have hrev2 : ("/ostree/" ++ b).data.reverse
      = b.data.reverse ++ '/' :: ['e', 'e', 'r', 't', 's', 'o', '/'] := by
    simp [String.data_append]
  have hne : ("/ostree/" ++ b).data ≠ [] := by simp [String.data_append]
  rw [if_neg hne, hrev2]
  have hdw : (b.data.reverse ++ '/' :: ['e', 'e', 'r', 't', 's', 'o', '/']).dropWhile
      (fun c => decide (c = '/')) = b.data.reverse ++ '/' :: ['e', 'e', 'r', 't', 's', 'o', '/'] := by
    rw [hx]
    simp [List.dropWhile, hxne]
  simp only [hdw]
  rw [if_neg (by rw [hx]; simp),
    takeWhile_append_stop _ _ _ _ (fun c hc => by simpa using hbrev c hc) (by simp)]
  simp

/-! ## Well-formed trees stay well-formed -/

theorem grows_dir {a b : FS} (h : grows a b) (p : Path) (hd : lookup a p = some Node.dir) :
    lookup b p = some Node.dir := by
  obtain ⟨hne, hk⟩ := h p (by rw [hd]; simp)
  rw [hd] at hk
  cases hb : lookup b p with
  | none => exact absurd hb hne
  | some m =>
    cases m with
    | dir => rfl
    | file c => rw [hb] at hk; simp [isFileNode] at hk

theorem path_eq_dropLast_append (d : Path) (hd : d ≠ []) :
    ∃ c, d = d.dropLast ++ [c] := by
  refine ⟨d.getLast hd, ?_⟩
  exact (List.dropLast_append_getLast hd).symm

theorem wellFormed_cons_new (fs : FS) (d : Path) (n : Node) (hwf : wellFormed fs)
    (hnew : lookup fs d = none) (hne : d ≠ [])
    (hpar : d.dropLast = [] ∨ lookup fs d.dropLast = some Node.dir) :
    wellFormed ((d, n) :: fs) := by
  intro q c hq
  rw [lookup_cons] at hq ⊢
  have hqd : d ≠ q := by
    intro e
    subst e
    by_cases hc : d = d ++ [c]
    · have := congrArg List.length hc
      simp at this
    · rw [if_neg hc] at hq
      rcases hwf d c hq with h1 | h1
      · exact hne h1
      · rw [hnew] at h1; cases h1
  rw [if_neg hqd]
  by_cases hc : d = q ++ [c]
  · have hdl : d.dropLast = q := by rw [hc]; simp
    rw [hdl] at hpar
    exact hpar
  · rw [if_neg hc] at hq
    exact hwf q c hq

theorem wellFormed_erase_file (fs : FS) (p : Path) (hwf : wellFormed fs)
    (hfile : lookup fs p ≠ some Node.dir) : wellFormed (erasePath fs p) := by
  intro q c hq
  rw [lookup_erasePath] at hq ⊢
  by_cases h1 : q ++ [c] = p
  · rw [if_pos h1] at hq; exact absurd rfl hq
  · rw [if_neg h1] at hq
    rcases hwf q c hq with h2 | h2
    · exact Or.inl h2
    · right
      have : q ≠ p := by
        intro e; subst e; exact hfile h2
      rw [if_neg this]
      exact h2

theorem mkdirChain_wellFormed (todo : List String) (fs : FS) (cur : Path) (fs1 : FS)
    (hwf : wellFormed fs) (hcur : cur = [] ∨ lookup fs cur = some Node.dir)
    (h : mkdirChain fs cur todo = some fs1) : wellFormed fs1 := by
  induction todo generalizing fs cur with
  | nil =>
    simp only [mkdirChain, Option.some.injEq] at h
    subst h
    exact hwf
  | cons c cs ih =>
    unfold mkdirChain at h
    cases hl : lookup fs (cur ++ [c]) with
    | none =>
      simp only [hl] at h
      refine ih _ _ ?_ ?_ h
      · exact wellFormed_cons_new fs _ _ hwf hl (by simp) (by simpa using hcur)
      · right; simp [lookup_cons]
    | some m =>
      cases m with
      | dir =>
        simp only [hl] at h
        exact ih _ _ hwf (Or.inr hl) h
      | file x => simp [hl] at h

theorem glnx_file_copy_at_wellFormed (env : Env) (fs : FS) (sd : Path) (src : String)
    (dd : Path) (dest : String) (fs2 : FS) (hwf : wellFormed fs)
    (h : glnx_file_copy_at env fs sd src dd dest = some fs2) : wellFormed fs2 := by
  obtain ⟨s, d, c, -, -, -, hd, hp, rfl⟩ := glnx_file_copy_at_eq_some _ _ _ _ _ _ _ h
  refine wellFormed_cons_new fs d _ hwf hd ?_ (Or.inr hp)
  intro e
  subst e
  simp only [List.dropLast_nil] at hp
  rw [hd] at hp
  cases hp

theorem write_at_wellFormed (env : Env) (fs : FS) (config : BootEntryConfig) (dfd : Path)
    (name : String) (fs2 : FS) (hwf : wellFormed fs)
    (h : ostree_bootconfig_parser_write_at env fs config dfd name = some fs2) :
    wellFormed fs2 := by
  obtain ⟨p, -, hnd, hp, rfl⟩ := write_at_eq_some _ _ _ _ _ _ h
  have hne : p ≠ [] := by
    intro e
    subst e
    simp only [List.dropLast_nil] at hp
    exact hnd hp
  have hpp : p.dropLast ≠ p := by
    intro e
    have := congrArg List.length e
    cases p with
    | nil => exact hne rfl
    | cons x xs => simp at this
  refine wellFormed_cons_new _ p _ (wellFormed_erase_file fs p hwf hnd) ?_ hne ?_
  · rw [lookup_erasePath]; simp
  · right
    rw [lookup_erasePath, if_neg hpp]
    exact hp

theorem do_copy_if_needed_wellFormed (env : Env) (relpath : Option String) (bootfd efifd : Path)
    (fs : FS) (hwf : wellFormed fs) :
    wellFormed (do_copy_if_needed env relpath bootfd efifd fs).fs := by
  cases relpath with
  | none => exact hwf
  | some r =>
    simp only [do_copy_if_needed]
    cases hst : fstatat env fs efifd (skipLeadingSlash r) with
    | found => exact hwf
    | failed => exact hwf
    | enoent =>
      simp only
      cases hmk : glnx_shutil_mkdir_p_at env fs efifd (g_path_get_dirname (skipLeadingSlash r)) with
      | none => exact hwf
      | some fs1 =>
        simp only
        obtain ⟨p, -, hm⟩ := glnx_shutil_mkdir_p_at_eq_some env fs efifd _ fs1 hmk
        have w1 := mkdirChain_wellFormed p fs [] fs1 hwf (Or.inl rfl) hm
        cases hcp : glnx_file_copy_at env fs1 bootfd (skipLeadingSlash r) efifd
            (skipLeadingSlash r) with
        | none => exact w1
        | some fs2 => exact glnx_file_copy_at_wellFormed _ _ _ _ _ _ _ w1 hcp

theorem deploy_boot_data_wellFormed (env : Env) (config : BootEntryConfig) (fs : FS)
    (hwf : wellFormed fs) : wellFormed (deploy_boot_data env config fs).2 := by
  unfold deploy_boot_data
  cases hb : glnx_opendirat env fs [] "boot" with
  | none => exact hwf
  | some bootfd =>
    cases he : glnx_opendirat env fs [] "boot/efi" with
    | none => exact hwf
    | some efifd =>
      simp only
      have g1 := do_copy_if_needed_wellFormed env (some config.linux) bootfd efifd fs hwf
      split
      · exact g1
      · split
        · exact do_copy_if_needed_wellFormed env config.initrd bootfd efifd _ g1
        · exact do_copy_if_needed_wellFormed env config.initrd bootfd efifd _ g1

theorem write_out_boot_config_wellFormed (env : Env) (config : BootEntryConfig)
    (bootversion : Int) (fs : FS) (hwf : wellFormed fs) :
    wellFormed (write_out_boot_config env config bootversion fs).2 := by
  unfold write_out_boot_config
  cases hb : glnx_opendirat env fs [] config_path with
  | none => exact hwf
  | some fd =>
    simp only
    cases hw : ostree_bootconfig_parser_write_at env fs config fd
        (entryFileName bootversion config.version) with
    | none => exact hwf
    | some fs1 => exact write_at_wellFormed _ _ _ _ _ _ hwf hw

theorem write_config_loop_wellFormed (env : Env) (bootversion : Int) (L : List BootEntryConfig)
    (active : List String) (fs : FS) (hwf : wellFormed fs) :
    wellFormed (write_config_loop env bootversion L active fs).2.1 := by
  induction L generalizing active fs with
  | nil => exact hwf
  | cons config rest ih =>
    unfold write_config_loop
    simp only
    have g1 := deploy_boot_data_wellFormed env config fs hwf
    split
    · exact g1
    · have g2 := write_out_boot_config_wellFormed env config bootversion _ g1
      split
      · exact g2
      · exact ih _ _ g2

theorem wellFormed_eraseTree (fs : FS) (p : Path) (hwf : wellFormed fs) :
    wellFormed (eraseTree fs p) := by
  intro q c hq
  rw [lookup_eraseTree] at hq ⊢
  by_cases h1 : p.isPrefixOf (q ++ [c]) = true
  · rw [if_pos h1] at hq; exact absurd rfl hq
  · rw [if_neg h1] at hq
    rcases hwf q c hq with h2 | h2
    · exact Or.inl h2
    · right
      have : ¬ p.isPrefixOf q = true := by
        intro hp
        apply h1
        rw [List.isPrefixOf_iff_prefix] at hp ⊢
        exact hp.trans (List.prefix_append q [c])
      rw [if_neg this]
      exact h2

theorem foldl_wellFormed (step : FS → String → FS)
    (hstep : ∀ fs n, wellFormed fs → wellFormed (step fs n)) (l : List String) (fs : FS)
    (hwf : wellFormed fs) : wellFormed (l.foldl step fs) := by
  induction l generalizing fs with
  | nil => exact hwf
  | cons n rest ih => exact ih _ (hstep fs n hwf)

theorem clean_bootversion_wellFormed (env : Env) (bootversion : Int) (fs : FS)
    (hwf : wellFormed fs) : wellFormed (clean_bootversion env bootversion fs).2 := by
  unfold clean_bootversion
  cases ho : glnx_opendirat env fs [] config_path with
  | none => exact hwf
  | some fd =>
    simp only
    split
    · exact hwf
    · apply foldl_wellFormed _ _ _ _ hwf
      intro fs1 n h1
      unfold clean_bootversion_step
      split
      · cases hu : unlinkat env fs1 fd n with
        | none => exact h1
        | some fs2 =>
          obtain ⟨⟨c, hc⟩, -, rfl⟩ := (unlinkat_eq_some _ _ _ _ _).mp hu
          exact wellFormed_erase_file fs1 _ h1 (by rw [hc]; simp)
      · exact h1

theorem clean_bootdata_wellFormed (env : Env) (active : List String) (fs : FS)
    (hwf : wellFormed fs) : wellFormed (clean_bootdata env active fs).2 := by
  unfold clean_bootdata
  cases ho : glnx_opendirat env fs [] "boot/efi/ostree" with
  | none => exact hwf
  | some fd =>
    simp only
    split
    · exact hwf
    · apply foldl_wellFormed _ _ _ _ hwf
      intro fs1 n h1
      unfold clean_bootdata_step
      split
      · exact h1
      · cases hr : glnx_shutil_rm_rf_at env fs1 fd n with
        | none => exact h1
        | some fs2 =>
          unfold glnx_shutil_rm_rf_at at hr
          split at hr
          · cases hr
          · cases hr
            exact wellFormed_eraseTree fs1 _ h1

/-! ## What staging leaves behind -/

theorem do_copy_if_needed_staged (env : Env) (r : String) (bootfd efifd : Path) (fs : FS)
    (hok : (do_copy_if_needed env (some r) bootfd efifd fs).ok = true) (d : Path)
    (hd : resolve efifd (skipLeadingSlash r) = some d) :
    lookup (do_copy_if_needed env (some r) bootfd efifd fs).fs d ≠ none := by
  simp only [do_copy_if_needed] at hok ⊢
  cases hst : fstatat env fs efifd (skipLeadingSlash r) with
  | found =>
    simp only
    unfold fstatat at hst
    simp only [hd] at hst
    split at hst
    · cases hst
    · split at hst
      · assumption
      · cases hst
  | failed => simp [hst] at hok
  | enoent =>
    simp only [hst] at hok ⊢
    cases hmk : glnx_shutil_mkdir_p_at env fs efifd (g_path_get_dirname (skipLeadingSlash r)) with
    | none => simp [hmk] at hok
    | some fs1 =>
      simp only [hmk] at hok ⊢
      cases hcp : glnx_file_copy_at env fs1 bootfd (skipLeadingSlash r) efifd
          (skipLeadingSlash r) with
      | none => simp [hcp] at hok
      | some fs2 =>
        simp only
        obtain ⟨s0, d1, c, -, hd1, -, -, -, rfl⟩ := glnx_file_copy_at_eq_some _ _ _ _ _ _ _ hcp
        rw [hd] at hd1
        cases hd1
        simp [lookup_cons]

theorem resolve_boot_efi : resolve [] "boot/efi" = some ["boot", "efi"] := by decide

theorem deploy_boot_data_staged (env : Env) (config : BootEntryConfig) (fs : FS)
    (hefi : lookup fs ["boot", "efi"] = some Node.dir)
    (hopen : env.open_fails ["boot", "efi"] = false)
    (hok : (deploy_boot_data env config fs).1 = true) (d : Path)
    (hd : resolve ["boot", "efi"] (skipLeadingSlash config.linux) = some d) :
    lookup (deploy_boot_data env config fs).2 d ≠ none := by
  have he : glnx_opendirat env fs [] "boot/efi" = some ["boot", "efi"] :=
    (glnx_opendirat_eq_some _ _ _ _ _).mpr ⟨resolve_boot_efi, hefi, hopen⟩
  unfold deploy_boot_data at hok ⊢
  cases hb : glnx_opendirat env fs [] "boot" with
  | none => simp [hb] at hok
  | some bootfd =>
    simp only [hb, he] at hok ⊢
    cases h1 : (do_copy_if_needed env (some config.linux) bootfd ["boot", "efi"] fs).ok with
    | false => simp [h1] at hok
    | true =>
      have hs := do_copy_if_needed_staged env config.linux bootfd ["boot", "efi"] fs h1 d hd
      have hg := do_copy_if_needed_grows env config.initrd bootfd ["boot", "efi"]
        (do_copy_if_needed env (some config.linux) bootfd ["boot", "efi"] fs).fs
      simp only [Bool.true_eq_false, if_false]
      split
      · exact (hg d hs).1
      · exact (hg d hs).1

theorem write_config_loop_staged (env : Env) (bootversion : Int) (L : List BootEntryConfig)
    (active : List String) (fs : FS)
    (hefi : lookup fs ["boot", "efi"] = some Node.dir)
    (hopen : env.open_fails ["boot", "efi"] = false)
    (hok : (write_config_loop env bootversion L active fs).1 = none)
    (e : BootEntryConfig) (he : e ∈ L) (d : Path)
    (hd : resolve ["boot", "efi"] (skipLeadingSlash e.linux) = some d) :
    lookup (write_config_loop env bootversion L active fs).2.1 d ≠ none := by
  induction L generalizing active fs with
  | nil => cases he
  | cons config rest ih =>
    unfold write_config_loop at hok ⊢
    simp only at hok ⊢
    split at hok
    · cases hok
    · rename_i h1
      rw [if_neg h1]
      split at hok
      · cases hok
      · rename_i h2
        rw [if_neg h2]
        have g1 := deploy_boot_data_grows env config fs
        have g2 := write_out_boot_config_grows env config bootversion
          (deploy_boot_data env config fs).2
        rcases List.mem_cons.mp he with h3 | h3
        · subst h3
          have hs := deploy_boot_data_staged env e fs hefi hopen (by simpa using h1) d hd
          exact (write_config_loop_grows env bootversion rest _ _ d (g2 d hs).1).1
        · exact ih _ _ (grows_dir (grows_trans g1 g2) _ hefi) hok h3

theorem clean_bootversion_opened (env : Env) (bootversion : Int) (fs fs1 : FS)
    (h : clean_bootversion env bootversion fs = (true, fs1)) :
    lookup fs entriesDir = some Node.dir ∧ env.open_fails entriesDir = false ∧
      env.cancelled = false := by
  unfold clean_bootversion at h
  cases ho : glnx_opendirat env fs [] config_path with
  | none => simp [ho] at h
  | some fd =>
    obtain ⟨hres, hd, hof⟩ := (glnx_opendirat_eq_some _ _ _ _ _).mp ho
    rw [resolve_config_path] at hres
    cases hres
    simp only [ho] at h
    cases hc : env.cancelled with
    | true => simp [hc] at h
    | false => exact ⟨hd, hof, rfl⟩

theorem efi_is_dir_of_entries (fs : FS) (hwf : wellFormed fs)
    (h : lookup fs entriesDir = some Node.dir) : lookup fs ["boot", "efi"] = some Node.dir := by
  have h1 : lookup fs ["boot", "efi", "loader"] = some Node.dir := by
    rcases hwf ["boot", "efi", "loader"] "entries" (by
      show lookup fs entriesDir ≠ none
      rw [h]; simp) with h2 | h2
    · cases h2
    · exact h2
  rcases hwf ["boot", "efi"] "loader" (by
    show lookup fs ["boot", "efi", "loader"] ≠ none
    rw [h1]; simp) with h2 | h2
  · cases h2
  · exact h2

theorem wellFormed_of_check (fs : FS) (h : wellFormedB fs = true) : wellFormed fs := by
  intro p c hl
  obtain ⟨n, hn⟩ := exists_mem_of_lookup fs (p ++ [c]) hl
  unfold wellFormedB at h
  rw [List.all_eq_true] at h
  have := h _ hn
  simpa using this

/-- C2 (as stated, refuted): for the entry of the specification's example,
`linux = "/abc123/vmlinuz"`, `write_config` succeeds, the referenced basename
is `abc123`, the kernel is staged at `boot/efi/abc123/vmlinuz`, and
`boot/efi/ostree/abc123` does not exist. -/
theorem payload_dir_missing_for_example_entry :
    (_ostree_bootloader_sd_boot_write_config (quietEnv [sampleEntry]) 0 sampleFs).1 = none ∧
    g_path_get_basename (g_path_get_dirname sampleEntry.linux) = "abc123" ∧
    lookup (_ostree_bootloader_sd_boot_write_config (quietEnv [sampleEntry]) 0 sampleFs).2
      ["boot", "efi", "abc123", "vmlinuz"] ≠ none ∧
    lookup (_ostree_bootloader_sd_boot_write_config (quietEnv [sampleEntry]) 0 sampleFs).2
      (payloadRoot ++ ["abc123"]) = none := by
  decide

/-- C2 (amended): on a well-formed filesystem where opening `boot/efi` is not
refused, after `write_config` succeeds with entries `L`, for every entry of
`L` whose `linux` path is `/ostree/<b>/<file>` (`<b>` and `<file>` single path
components) the payload directory `boot/efi/ostree/<b>` exists, `<b>` being
the basename of the parent directory of that path. -/
theorem payload_dir_exists_for_ostree_kernel (env : Env) (bootversion : Int) (fs : FS)
    (L : List BootEntryConfig) (hwf : wellFormed fs)
    (hopen : env.open_fails ["boot", "efi"] = false)
    (hfetch : _ostree_sysroot_read_boot_loader_configs env bootversion = some L)
    (hok : (_ostree_bootloader_sd_boot_write_config env bootversion fs).1 = none)
    (e : BootEntryConfig) (he : e ∈ L) (b f : String) (hb : plainName b) (hf : plainName f)
    (hl : e.linux = "/ostree/" ++ b ++ "/" ++ f) :
    g_path_get_basename (g_path_get_dirname e.linux) = b ∧
    lookup (_ostree_bootloader_sd_boot_write_config env bootversion fs).2 (payloadRoot ++ [b])
      = some Node.dir := by
  have hkey : bootdataKey e = b := bootdataKey_ostree e b f hb hf hl
  refine ⟨hkey, ?_⟩
  obtain ⟨fs0, L1, fs2, hc1, hfe, hloop, hc2, hc3⟩ :=
    write_config_success env bootversion fs hok
  rw [hfetch] at hfe
  cases hfe
  obtain ⟨hent, -, -⟩ := clean_bootversion_opened _ _ _ _ hc1
  have hefi := efi_is_dir_of_entries fs hwf hent
  have hwf0 : wellFormed fs0 := by
    have := clean_bootversion_wellFormed env bootversion fs hwf
    rw [hc1] at this
    exact this
  have hefi0 : lookup fs0 ["boot", "efi"] = some Node.dir := by
    rw [clean_bootversion_lookup _ _ _ _ hc1, entrySwept_not_child]
    · simpa using hefi
    · intro n hn
      have := congrArg List.length hn
      simp [entriesDir] at this
  have hres : resolve ["boot", "efi"] (skipLeadingSlash e.linux)
      = some (["boot", "efi"] ++ ["ostree", b, f]) := by
    apply resolve_ostree _ _ b f hb hf
    rw [hl]
    exact skipLeadingSlash_ostree b f
  have hstaged := write_config_loop_staged env bootversion L [] fs0 hefi0 hopen hloop e he _ hres
  have hwf1 := write_config_loop_wellFormed env bootversion L [] fs0 hwf0
  have hdir1 : lookup (write_config_loop env bootversion L [] fs0).2.1 (payloadRoot ++ [b])
      = some Node.dir := by
    rcases hwf1 (payloadRoot ++ [b]) f (by simpa [payloadRoot] using hstaged) with h1 | h1
    · simp [payloadRoot] at h1
    · exact h1
  have hdir2 : lookup fs2 (payloadRoot ++ [b]) = some Node.dir := by
    rw [clean_bootversion_lookup _ _ _ _ hc2,
      entrySwept_not_child _ _ _ _ (fun m => payload_child_not_entry b m)]
    simpa using hdir1
  rw [clean_bootdata_lookup _ _ _ _ hc3, payloadSwept_child]
  have hact : b ∈ (write_config_loop env bootversion L [] fs0).2.2 :=
    (write_config_loop_active env bootversion L [] fs0 hloop b).mpr (Or.inr ⟨e, he, hkey.symm⟩)
  have : (write_config_loop env bootversion L [] fs0).2.2.contains b = true := by
    simpa using hact
  rw [this]
  simp [hdir2]

/-- C2 (amended), witness: the entry of deployment `abc123` on the sample sysroot. -/
theorem payload_dir_exists_for_ostree_kernel_witness :
    g_path_get_basename (g_path_get_dirname ostreeEntry.linux) = "abc123" ∧
    lookup (_ostree_bootloader_sd_boot_write_config (quietEnv [ostreeEntry]) 0 ostreeFs).2
      (payloadRoot ++ ["abc123"]) = some Node.dir :=
  payload_dir_exists_for_ostree_kernel (quietEnv [ostreeEntry]) 0 ostreeFs [ostreeEntry]
    (wellFormed_of_check ostreeFs (by decide))
    rfl rfl (by decide) ostreeEntry (by simp) "abc123" "vmlinuz"
    (by refine ⟨by decide, by decide, by decide, by decide⟩)
    (by refine ⟨by decide, by decide, by decide, by decide⟩) (by decide)

/-! ## Where regular files can appear -/

theorem mkdirChain_files (todo : List String) (fs : FS) (cur : Path) (fs1 : FS)
    (h : mkdirChain fs cur todo = some fs1) (q : Path) :
    isFileNode (lookup fs1 q) = isFileNode (lookup fs q) := by
  induction todo generalizing fs cur with
  | nil =>
    simp only [mkdirChain, Option.some.injEq] at h
    subst h
    rfl
  | cons c cs ih =>
    unfold mkdirChain at h
    cases hl : lookup fs (cur ++ [c]) with
    | none =>
      simp only [hl] at h
      rw [ih _ _ h, lookup_cons]
      by_cases hq : cur ++ [c] = q
      · subst hq; simp [hl, isFileNode]
      · rw [if_neg hq]
    | some m =>
      cases m with
      | dir =>
        simp only [hl] at h
        exact ih _ _ h
      | file x => simp [hl] at h

theorem do_copy_if_needed_files (env : Env) (relpath : Option String) (bootfd efifd : Path)
    (fs : FS) (q : Path)
    (h : isFileNode (lookup (do_copy_if_needed env relpath bootfd efifd fs).fs q) = true) :
    isFileNode (lookup fs q) = true ∨
      ∃ r, relpath = some r ∧ resolve efifd (skipLeadingSlash r) = some q := by
  cases relpath with
  | none => exact Or.inl h
  | some r =>
    simp only [do_copy_if_needed] at h
    cases hst : fstatat env fs efifd (skipLeadingSlash r) with
    | found => rw [hst] at h; exact Or.inl h
    | failed => rw [hst] at h; exact Or.inl h
    | enoent =>
      simp only [hst] at h
      cases hmk : glnx_shutil_mkdir_p_at env fs efifd (g_path_get_dirname (skipLeadingSlash r)) with
      | none => rw [hmk] at h; exact Or.inl h
      | some fs1 =>
        simp only [hmk] at h
        obtain ⟨p, -, hm⟩ := glnx_shutil_mkdir_p_at_eq_some env fs efifd _ fs1 hmk
        have hfiles := mkdirChain_files p fs [] fs1 hm q
        cases hcp : glnx_file_copy_at env fs1 bootfd (skipLeadingSlash r) efifd
            (skipLeadingSlash r) with
        | none =>
          rw [hcp] at h
          simp only at h
          left
          rw [← hfiles]
          exact h
        | some fs2 =>
          rw [hcp] at h
          simp only at h
          obtain ⟨s0, d, c, -, hd, -, -, -, rfl⟩ := glnx_file_copy_at_eq_some _ _ _ _ _ _ _ hcp
          rw [lookup_cons] at h
          by_cases hq : d = q
          · subst hq
            exact Or.inr ⟨r, rfl, hd⟩
          · rw [if_neg hq] at h
            left
            rw [← hfiles]
            exact h

theorem glnx_opendirat_efi (env : Env) (fs : FS) (efifd : Path)
    (h : glnx_opendirat env fs [] "boot/efi" = some efifd) : efifd = ["boot", "efi"] := by
  obtain ⟨hres, -, -⟩ := (glnx_opendirat_eq_some _ _ _ _ _).mp h
  rw [resolve_boot_efi] at hres
  cases hres
  rfl

theorem deploy_boot_data_files (env : Env) (config : BootEntryConfig) (fs : FS) (q : Path)
    (h : isFileNode (lookup (deploy_boot_data env config fs).2 q) = true) :
    isFileNode (lookup fs q) = true ∨
      ∃ r, (some config.linux = some r ∨ config.initrd = some r) ∧
        resolve ["boot", "efi"] (skipLeadingSlash r) = some q := by
  unfold deploy_boot_data at h
  cases hb : glnx_opendirat env fs [] "boot" with
  | none => rw [hb] at h; exact Or.inl h
  | some bootfd =>
    cases he : glnx_opendirat env fs [] "boot/efi" with
    | none => rw [hb, he] at h; exact Or.inl h
    | some efifd =>
      have hefi := glnx_opendirat_efi env fs efifd he
      subst hefi
      simp only [hb, he] at h
      have key1 := do_copy_if_needed_files env (some config.linux) bootfd ["boot", "efi"] fs q
      have key2 := do_copy_if_needed_files env config.initrd bootfd ["boot", "efi"]
        (do_copy_if_needed env (some config.linux) bootfd ["boot", "efi"] fs).fs q
      have step1 : isFileNode (lookup
            (do_copy_if_needed env (some config.linux) bootfd ["boot", "efi"] fs).fs q) = true →
          isFileNode (lookup fs q) = true ∨
            ∃ r, (some config.linux = some r ∨ config.initrd = some r) ∧
              resolve ["boot", "efi"] (skipLeadingSlash r) = some q := by
        intro h1
        rcases key1 h1 with h2 | ⟨r, hr, hres⟩
        · exact Or.inl h2
        · exact Or.inr ⟨r, Or.inl hr, hres⟩
      have step2 : isFileNode (lookup
            (do_copy_if_needed env config.initrd bootfd ["boot", "efi"]
              (do_copy_if_needed env (some config.linux) bootfd ["boot", "efi"] fs).fs).fs q)
              = true →
          isFileNode (lookup fs q) = true ∨
            ∃ r, (some config.linux = some r ∨ config.initrd = some r) ∧
              resolve ["boot", "efi"] (skipLeadingSlash r) = some q := by
        intro h1
        rcases key2 h1 with h2 | ⟨r, hr, hres⟩
        · exact step1 h2
        · exact Or.inr ⟨r, Or.inr hr, hres⟩
      split at h
      · exact step1 h
      · split at h
        · exact step2 h
        · exact step2 h

theorem glnx_opendirat_entries (env : Env) (fs : FS) (fd : Path)
    (h : glnx_opendirat env fs [] config_path = some fd) : fd = entriesDir := by
  obtain ⟨hres, -, -⟩ := (glnx_opendirat_eq_some _ _ _ _ _).mp h
  rw [resolve_config_path] at hres
  cases hres
  rfl

theorem write_out_boot_config_files (env : Env) (config : BootEntryConfig) (bootversion : Int)
    (fs : FS) (q : Path)
    (h : isFileNode (lookup (write_out_boot_config env config bootversion fs).2 q) = true) :
    isFileNode (lookup fs q) = true ∨
      resolve entriesDir (entryFileName bootversion config.version) = some q := by
  unfold write_out_boot_config at h
  cases hb : glnx_opendirat env fs [] config_path with
  | none => rw [hb] at h; exact Or.inl h
  | some fd =>
    have hfd := glnx_opendirat_entries env fs fd hb
    subst hfd
    simp only [hb] at h
    cases hw : ostree_bootconfig_parser_write_at env fs config entriesDir
        (entryFileName bootversion config.version) with
    | none => rw [hw] at h; exact Or.inl h
    | some fs1 =>
      rw [hw] at h
      simp only at h
      obtain ⟨p, hres, -, -, rfl⟩ := write_at_eq_some _ _ _ _ _ _ hw
      rw [lookup_cons] at h
      by_cases hq : p = q
      · subst hq; exact Or.inr hres
      · rw [if_neg hq, lookup_erasePath, if_neg (fun e => hq e.symm)] at h
        exact Or.inl h

theorem write_out_boot_config_written (env : Env) (config : BootEntryConfig)
    (bootversion : Int) (fs : FS)
    (hok : (write_out_boot_config env config bootversion fs).1 = true) :
    ∃ p, resolve entriesDir (entryFileName bootversion config.version) = some p ∧
      isFileNode (lookup (write_out_boot_config env config bootversion fs).2 p) = true := by
  unfold write_out_boot_config at hok ⊢
  cases hb : glnx_opendirat env fs [] config_path with
  | none => simp [hb] at hok
  | some fd =>
    have hfd := glnx_opendirat_entries env fs fd hb
    subst hfd
    simp only [hb] at hok ⊢
    cases hw : ostree_bootconfig_parser_write_at env fs config entriesDir
        (entryFileName bootversion config.version) with
    | none => simp [hw] at hok
    | some fs1 =>
      obtain ⟨p, hres, -, -, rfl⟩ := write_at_eq_some _ _ _ _ _ _ hw
      exact ⟨p, hres, by simp [lookup_cons, isFileNode]⟩

/-! ## Entry file names -/

theorem entryFileName_data (bootversion : Int) (v : String) :
    (entryFileName bootversion v).data
      = ("ostree-" ++ fmt_d bootversion ++ "-").data ++ (v.data ++ ".conf".data) := by
  unfold entryFileName
  simp [String.data_append]

theorem entryFileName_is_slot_entry (bootversion : Int) (v : String) :
    isSlotEntryName bootversion (entryFileName bootversion v) = true := by
  unfold isSlotEntryName g_str_has_prefix g_str_has_suffix
  rw [Bool.and_eq_true]
  constructor
  · rw [List.isPrefixOf_iff_prefix, entryFileName_data]
    exact List.prefix_append _ _
  · rw [List.isSuffixOf_iff_suffix, entryFileName_data, ← List.append_assoc]
    exact List.suffix_append _ _

theorem components_plain (s : String) (h1 : s.data ≠ []) (h2 : '/' ∉ s.data) :
    components s = [s] := by
  unfold components
  rw [splitSlash_no_slash s.data h2]
  have : s.data.isEmpty = false := by
    cases h : s.data with
    | nil => exact absurd h h1
    | cons _ _ => rfl
  simp [List.filter, this]

theorem resolve_plain (dfd : Path) (s : String) (h : plainName s) :
    resolve dfd s = some (dfd ++ [s]) := by
  unfold resolve
  have hne : s ≠ "" := by
    intro e
    apply h.1
    rw [e]
  rw [if_neg hne, components_plain s h.1 h.2.1]
  simp [walk, h.2.2.1, h.2.2.2]

theorem entryFileName_one_plain (v : String) (hv : '/' ∉ v.data) :
    plainName (entryFileName 1 v) := by
  have hd : (entryFileName 1 v).data
      = 'o' :: 's' :: 't' :: 'r' :: 'e' :: 'e' :: '-' :: '1' :: '-' :: (v.data ++ ".conf".data) := by
    rw [entryFileName_data, slot_prefix_data, fmt_d_one]
    simp
  refine ⟨?_, ?_, ?_, ?_⟩
  · rw [hd]; simp
  · rw [hd]
    simp only [List.mem_cons, List.mem_append, not_or]
    refine ⟨by decide, by decide, by decide, by decide, by decide, by decide, by decide,
      by decide, by decide, hv, by decide⟩
  · intro e
    have := congrArg String.data e
    rw [hd] at this
    simp at this
  · intro e
    have := congrArg String.data e
    rw [hd] at this
    simp at this

theorem entryFileName_injective (bootversion : Int) (v w : String)
    (h : entryFileName bootversion v = entryFileName bootversion w) : v = w := by
  have hd := congrArg String.data h
  rw [entryFileName_data, entryFileName_data] at hd
  have h1 := List.append_cancel_left hd
  have h2 := List.append_cancel_right h1
  exact String.ext h2

/-! ## Regular files after the loop -/

theorem grows_file {a b : FS} (h : grows a b) (p : Path)
    (hf : isFileNode (lookup a p) = true) : isFileNode (lookup b p) = true := by
  have hne : lookup a p ≠ none := by
    intro e
    rw [e] at hf
    cases hf
  rw [(h p hne).2]
  exact hf

theorem write_config_loop_files (env : Env) (bootversion : Int) (L : List BootEntryConfig)
    (active : List String) (fs : FS) (q : Path)
    (h : isFileNode (lookup (write_config_loop env bootversion L active fs).2.1 q) = true) :
    isFileNode (lookup fs q) = true ∨
      (∃ e ∈ L, ∃ r, (some e.linux = some r ∨ e.initrd = some r) ∧
        resolve ["boot", "efi"] (skipLeadingSlash r) = some q) ∨
      (∃ e ∈ L, resolve entriesDir (entryFileName bootversion e.version) = some q) := by
  induction L generalizing active fs with
  | nil => exact Or.inl h
  | cons config rest ih =>
    have from_deploy : isFileNode (lookup (deploy_boot_data env config fs).2 q) = true →
        isFileNode (lookup fs q) = true ∨
          (∃ e ∈ config :: rest, ∃ r, (some e.linux = some r ∨ e.initrd = some r) ∧
            resolve ["boot", "efi"] (skipLeadingSlash r) = some q) ∨
          (∃ e ∈ config :: rest,
            resolve entriesDir (entryFileName bootversion e.version) = some q) := by
      intro h1
      rcases deploy_boot_data_files env config fs q h1 with h2 | ⟨r, hr, hres⟩
      · exact Or.inl h2
      · exact Or.inr (Or.inl ⟨config, by simp, r, hr, hres⟩)
    have from_write : isFileNode (lookup (write_out_boot_config env config bootversion
          (deploy_boot_data env config fs).2).2 q) = true →
        isFileNode (lookup fs q) = true ∨
          (∃ e ∈ config :: rest, ∃ r, (some e.linux = some r ∨ e.initrd = some r) ∧
            resolve ["boot", "efi"] (skipLeadingSlash r) = some q) ∨
          (∃ e ∈ config :: rest,
            resolve entriesDir (entryFileName bootversion e.version) = some q) := by
      intro h1
      rcases write_out_boot_config_files env config bootversion _ q h1 with h2 | h2
      · exact from_deploy h2
      · exact Or.inr (Or.inr ⟨config, by simp, h2⟩)
    unfold write_config_loop at h
    simp only at h
    split at h
    · exact from_deploy h
    · split at h
      · exact from_write h
      · rcases ih _ _ h with h1 | ⟨e, he, r, hr, hres⟩ | ⟨e, he, hres⟩
        · exact from_write h1
        · exact Or.inr (Or.inl ⟨e, List.mem_cons_of_mem _ he, r, hr, hres⟩)
        · exact Or.inr (Or.inr ⟨e, List.mem_cons_of_mem _ he, hres⟩)

theorem write_config_loop_written (env : Env) (bootversion : Int) (L : List BootEntryConfig)
    (active : List String) (fs : FS)
    (hok : (write_config_loop env bootversion L active fs).1 = none)
    (e : BootEntryConfig) (he : e ∈ L) :
    ∃ p, resolve entriesDir (entryFileName bootversion e.version) = some p ∧
      isFileNode (lookup (write_config_loop env bootversion L active fs).2.1 p) = true := by
  induction L generalizing active fs with
  | nil => cases he
  | cons config rest ih =>
    unfold write_config_loop at hok ⊢
    simp only at hok ⊢
    split at hok
    · cases hok
    · rename_i h1
      rw [if_neg h1]
      split at hok
      · cases hok
      · rename_i h2
        rw [if_neg h2]
        rcases List.mem_cons.mp he with h3 | h3
        · subst h3
          obtain ⟨p, hres, hfile⟩ := write_out_boot_config_written env e bootversion
            (deploy_boot_data env e fs).2 (by simpa using h2)
          exact ⟨p, hres, grows_file (write_config_loop_grows env bootversion rest _ _) p hfile⟩
        · exact ih _ _ hok h3

/-! ## Slot isolation -/

theorem payloadSwept_entry (env : Env) (active : List String) (fs : FS) (n : String) :
    payloadSwept env active fs (entriesDir ++ [n]) = false := by
  simp [payloadSwept, payloadRoot, entriesDir, List.isPrefixOf]

theorem clean_bootversion_no_slot_file (env : Env) (bootversion : Int) (fs fs1 : FS)
    (h : clean_bootversion env bootversion fs = (true, fs1))
    (hun : ∀ p, env.unlink_fails p = false) (n : String)
    (hn : isSlotEntryName bootversion n = true) :
    isFileNode (lookup fs1 (entriesDir ++ [n])) = false := by
  rw [clean_bootversion_lookup _ _ _ _ h, entrySwept_child, hn, hun]
  cases hf : isFileNode (lookup fs (entriesDir ++ [n])) with
  | true => simp [isFileNode]
  | false => simp [hf]

theorem clean_bootdata_entry (env : Env) (active : List String) (fs fs1 : FS)
    (h : clean_bootdata env active fs = (true, fs1)) (n : String) :
    lookup fs1 (entriesDir ++ [n]) = lookup fs (entriesDir ++ [n]) := by
  rw [clean_bootdata_lookup _ _ _ _ h, payloadSwept_entry]
  simp

theorem slot_files_after_write_config_one (env : Env) (fs : FS) (L1 : List BootEntryConfig)
    (hfetch : _ostree_sysroot_read_boot_loader_configs env 1 = some L1)
    (hok : (_ostree_bootloader_sd_boot_write_config env 1 fs).1 = none)
    (hun : ∀ p, env.unlink_fails p = false) :
    (∀ n, isSlotEntryName 0 n = true →
      isFileNode (lookup (_ostree_bootloader_sd_boot_write_config env 1 fs).2
        (entriesDir ++ [n])) = false) ∧
    ((∀ e ∈ L1, '/' ∉ e.version.data) →
     (∀ e ∈ L1, ∀ r, (some e.linux = some r ∨ e.initrd = some r) →
        ∀ n, resolve ["boot", "efi"] (skipLeadingSlash r) ≠ some (entriesDir ++ [n])) →
     ∀ n, (isSlotEntryName 1 n = true ∧
        isFileNode (lookup (_ostree_bootloader_sd_boot_write_config env 1 fs).2
          (entriesDir ++ [n])) = true) ↔
        ∃ e ∈ L1, n = entryFileName 1 e.version) := by
  obtain ⟨fs0, L, fs2, hc1, hfe, hloop, hc2, hc3⟩ := write_config_success env 1 fs hok
  rw [hfetch] at hfe
  cases hfe
  have hopp : (if (1 : Int) = 0 then (1 : Int) else 0) = 0 := by decide
  rw [hopp] at hc2
  constructor
  · intro n hn
    rw [clean_bootdata_entry _ _ _ _ hc3]
    exact clean_bootversion_no_slot_file env 0 _ fs2 hc2 hun n hn
  · intro hver hstage n
    rw [clean_bootdata_entry _ _ _ _ hc3]
    constructor
    · rintro ⟨hn, hfile⟩
      have hfile1 : isFileNode (lookup (write_config_loop env 1 L1 [] fs0).2.1
          (entriesDir ++ [n])) = true := by
        rw [clean_bootversion_lookup _ _ _ _ hc2] at hfile
        split at hfile
        · simp [isFileNode] at hfile
        · exact hfile
      rcases write_config_loop_files env 1 L1 [] fs0 _ hfile1 with
        h1 | ⟨e, he, r, hr, hres⟩ | ⟨e, he, hres⟩
      · rw [clean_bootversion_no_slot_file env 1 fs fs0 hc1 hun n hn] at h1
        cases h1
      · exact absurd hres (hstage e he r hr n)
      · refine ⟨e, he, ?_⟩
        rw [resolve_plain entriesDir _ (entryFileName_one_plain e.version (hver e he))] at hres
        simp only [Option.some.injEq] at hres
        have := List.append_cancel_left hres
        simpa using this.symm
    · rintro ⟨e, he, rfl⟩
      have hslot := entryFileName_is_slot_entry 1 e.version
      refine ⟨hslot, ?_⟩
      obtain ⟨p, hres, hfile⟩ := write_config_loop_written env 1 L1 [] fs0 hloop e he
      rw [resolve_plain entriesDir _ (entryFileName_one_plain e.version (hver e he))] at hres
      cases hres
      rw [clean_bootversion_lookup _ _ _ _ hc2, entrySwept_child,
        slot_entry_one_not_zero _ hslot]
      simpa using hfile

/-- C3 (as stated, refuted): after `write_config(0)` and then `write_config(1)`
with two supplied entries that carry the same `version`, both calls succeed
and the loader-entries directory holds one file `ostree-1-*.conf`, not one per
supplied entry. -/
theorem same_version_entries_share_a_file :
    (_ostree_bootloader_sd_boot_write_config
      (twoSlotEnv [ostreeEntry] [ostreeEntry, sameVersionEntry]) 0 ostreeFs).1 = none ∧
    (_ostree_bootloader_sd_boot_write_config
      (twoSlotEnv [ostreeEntry] [ostreeEntry, sameVersionEntry]) 1
      (_ostree_bootloader_sd_boot_write_config
        (twoSlotEnv [ostreeEntry] [ostreeEntry, sameVersionEntry]) 0 ostreeFs).2).1 = none ∧
    slotEntryFiles 1 (_ostree_bootloader_sd_boot_write_config
      (twoSlotEnv [ostreeEntry] [ostreeEntry, sameVersionEntry]) 1
      (_ostree_bootloader_sd_boot_write_config
        (twoSlotEnv [ostreeEntry] [ostreeEntry, sameVersionEntry]) 0 ostreeFs).2).2
      = ["ostree-1-1.conf"] ∧
    [ostreeEntry, sameVersionEntry].length = 2 := by
  decide

/-- C3 (amended): after `write_config(0)` with entries `L0` followed by
`write_config(1)` with entries `L1`, both succeeding with no unlink refused,
the loader-entries directory holds no regular file with prefix `ostree-0-` and
suffix `.conf`; and when no `version` of `L1` contains `/` and no `linux` or
`initrd` path of `L1` is staged into the loader-entries directory, the regular
files named `ostree-1-*.conf` are exactly the files `ostree-1-<version>.conf`
of the entries of `L1` (entries with the same version share one file). -/
theorem slot_isolation_on_write (env : Env) (fs : FS) (L0 L1 : List BootEntryConfig)
    (hfetch0 : _ostree_sysroot_read_boot_loader_configs env 0 = some L0)
    (hfetch1 : _ostree_sysroot_read_boot_loader_configs env 1 = some L1)
    (hok0 : (_ostree_bootloader_sd_boot_write_config env 0 fs).1 = none)
    (hok1 : (_ostree_bootloader_sd_boot_write_config env 1
      (_ostree_bootloader_sd_boot_write_config env 0 fs).2).1 = none)
    (hun : ∀ p, env.unlink_fails p = false) :
    (∀ n, isSlotEntryName 0 n = true →
      isFileNode (lookup (_ostree_bootloader_sd_boot_write_config env 1
        (_ostree_bootloader_sd_boot_write_config env 0 fs).2).2 (entriesDir ++ [n])) = false) ∧
    ((∀ e ∈ L1, '/' ∉ e.version.data) →
     (∀ e ∈ L1, ∀ r, (some e.linux = some r ∨ e.initrd = some r) →
        ∀ n, resolve ["boot", "efi"] (skipLeadingSlash r) ≠ some (entriesDir ++ [n])) →
     ∀ n, (isSlotEntryName 1 n = true ∧
        isFileNode (lookup (_ostree_bootloader_sd_boot_write_config env 1
          (_ostree_bootloader_sd_boot_write_config env 0 fs).2).2 (entriesDir ++ [n])) = true) ↔
        ∃ e ∈ L1, n = entryFileName 1 e.version) :=
  slot_files_after_write_config_one env
    (_ostree_bootloader_sd_boot_write_config env 0 fs).2 L1 hfetch1 hok1 hun

/-! ## The directory name of a path and its resolution -/

theorem splitSlash_ne_nil (l : List Char) : splitSlash l ≠ [] := by
  cases l with
  | nil => simp [splitSlash]
  | cons c cs =>
    unfold splitSlash
    split
    · simp
    · split <;> simp

theorem splitSlash_append (x y : List Char) :
    splitSlash (x ++ '/' :: y) = splitSlash x ++ splitSlash y := by
  induction x with
  | nil => simp [splitSlash]
  | cons c cs ih =>
    by_cases hc : c = '/'
    · subst hc
      simp [splitSlash, ih]
    · have h1 : splitSlash (c :: (cs ++ '/' :: y))
          = match splitSlash (cs ++ '/' :: y) with
            | [] => [[c]]
            | h :: t => (c :: h) :: t := by
        rw [splitSlash]; simp [hc]
      have h2 : splitSlash (c :: cs)
          = match splitSlash cs with
            | [] => [[c]]
            | h :: t => (c :: h) :: t := by
        rw [splitSlash]; simp [hc]
      rw [List.cons_append, h1, h2, ih]
      cases hs : splitSlash cs with
      | nil => exact absurd hs (splitSlash_ne_nil cs)
      | cons h t => simp

theorem components_mk_append (x y : List Char) :
    components (String.mk (x ++ '/' :: y)) = components (String.mk x) ++ components (String.mk y) := by
  unfold components
  simp only [splitSlash_append, List.filter_append, List.map_append]

theorem components_mk_nil : components (String.mk []) = [] := by decide

theorem components_mk_slashes (l : List Char) (h : ∀ c ∈ l, c = '/') :
    components (String.mk l) = [] := by
  induction l with
  | nil => exact components_mk_nil
  | cons c cs ih =>
    have hc : c = '/' := h c (by simp)
    subst hc
    have := components_mk_append [] cs
    simp only [List.nil_append] at this
    rw [this, components_mk_nil, ih (fun d hd => h d (List.mem_cons_of_mem _ hd))]
    rfl

theorem components_mk_append_slashes (z l : List Char) (h : ∀ c ∈ l, c = '/') :
    components (String.mk (z ++ l)) = components (String.mk z) := by
  cases l with
  | nil => simp
  | cons c cs =>
    have hc : c = '/' := h c (by simp)
    subst hc
    rw [components_mk_append, components_mk_slashes cs (fun d hd => h d (List.mem_cons_of_mem _ hd))]
    simp

theorem walk_append (base : Path) (xs ys : List String) :
    walk base (xs ++ ys) = walk (walk base xs) ys := by
  induction xs generalizing base with
  | nil => rfl
  | cons c cs ih =>
    simp only [List.cons_append, walk]
    split
    · exact ih _
    · split
      · exact ih _
      · exact ih _

theorem walk_single (base : Path) (c : String) :
    walk base [c] = base ∨ walk base [c] = base.dropLast ∨ walk base [c] = base ++ [c] := by
  simp only [walk]
  split
  · exact Or.inl rfl
  · split
    · exact Or.inr (Or.inl rfl)
    · exact Or.inr (Or.inr rfl)

theorem components_dirname (s : String) :
    ∃ tail : List String, tail.length ≤ 1 ∧
      ∀ base, walk base (components s)
        = walk (walk base (components (g_path_get_dirname s))) tail := by
  have hsplit : s.data.reverse.takeWhile (fun c => !decide (c = '/'))
      ++ s.data.reverse.dropWhile (fun c => !decide (c = '/')) = s.data.reverse :=
    List.takeWhile_append_dropWhile _ _
  have hdata : s.data = (s.data.reverse.dropWhile (fun c => !decide (c = '/'))).reverse
      ++ (s.data.reverse.takeWhile (fun c => !decide (c = '/'))).reverse := by
    rw [← List.reverse_append, hsplit, List.reverse_reverse]
  have hlast : ∀ c ∈ (s.data.reverse.takeWhile (fun c => !decide (c = '/'))).reverse,
      c ≠ '/' := by
    intro c hc
    have := List.mem_takeWhile_imp (List.mem_reverse.mp hc)
    simpa using this
  generalize hL : (s.data.reverse.takeWhile (fun c => !decide (c = '/'))).reverse = last
    at hdata hlast
  have hs : s = String.mk s.data := rfl
  unfold g_path_get_dirname
  simp only
  cases hU : s.data.reverse.dropWhile (fun c => !decide (c = '/')) with
  | nil =>
    rw [hU] at hdata
    simp only [List.reverse_nil, List.nil_append] at hdata
    simp only [if_true]
    by_cases hempty : last = []
    · refine ⟨[], by simp, fun base => ?_⟩
      rw [hs, hdata, hempty, components_mk_nil]
      have : components "." = ["."] := by decide
      rw [this]
      simp [walk]
    · refine ⟨[String.mk last], by simp, fun base => ?_⟩
      have h1 : components s = [String.mk last] := by
        have := components_plain (String.mk last) hempty
          (fun hm => hlast '/' hm rfl)
        rw [hs, hdata]
        exact this
      have h2 : components "." = ["."] := by decide
      rw [h1, h2]
      simp [walk]
  | cons u us =>
    have hu : u = '/' := by
      have := List.head_dropWhile_not (fun c => !decide (c = '/')) s.data.reverse
        (by rw [hU]; simp)
      simp only [hU, List.head_cons] at this
      simpa using this
    subst hu
    rw [hU] at hdata
    simp only [List.reverse_cons, List.append_assoc, List.singleton_append] at hdata
    -- `s.data = us.reverse ++ '/' :: last`
    have hcomp : components s
        = components (String.mk us.reverse) ++ components (String.mk last) := by
      rw [hs, hdata]
      exact components_mk_append us.reverse last
    have hus : us.takeWhile (fun c => decide (c = '/'))
        ++ us.dropWhile (fun c => decide (c = '/')) = us :=
      List.takeWhile_append_dropWhile _ _
    have hsl : ∀ c ∈ (us.takeWhile (fun c => decide (c = '/'))).reverse, c = '/' := by
      intro c hc
      have := List.mem_takeWhile_imp (List.mem_reverse.mp hc)
      simpa using this
    have hpre : components (String.mk us.reverse)
        = components (String.mk (us.dropWhile (fun c => decide (c = '/'))).reverse) := by
      conv_lhs => rw [← hus]
      rw [List.reverse_append]
      exact components_mk_append_slashes _ _ hsl
    have hdir : components
        (if ('/' :: us) = [] then "."
         else if ('/' :: us).dropWhile (fun c => decide (c = '/')) = [] then "/"
         else String.mk (('/' :: us).dropWhile (fun c => decide (c = '/'))).reverse)
        = components (String.mk us.reverse) := by
      rw [if_neg (by simp)]
      have hd : ('/' :: us).dropWhile (fun c => decide (c = '/'))
          = us.dropWhile (fun c => decide (c = '/')) := by
        simp [List.dropWhile]
      rw [hd, hpre]
      by_cases he : us.dropWhile (fun c => decide (c = '/')) = []
      · rw [if_pos he, he]
        decide
      · rw [if_neg he]
    rw [hdir]
    by_cases hempty : last = []
    · refine ⟨[], by simp, fun base => ?_⟩
      rw [hcomp, hempty, components_mk_nil]
      simp [walk]
    · refine ⟨[String.mk last], by simp, fun base => ?_⟩
      have h1 : components (String.mk last) = [String.mk last] :=
        components_plain (String.mk last) hempty (fun hm => hlast '/' hm rfl)
      rw [hcomp, h1, walk_append]

theorem resolve_dirname (dfd : Path) (s : String) (d q : Path)
    (hd : resolve dfd s = some d) (hq : resolve dfd (g_path_get_dirname s) = some q) :
    d = q ∨ d = q.dropLast ∨ ∃ c, d = q ++ [c] := by
  unfold resolve at hd hq
  split at hd
  · cases hd
  · split at hq
    · cases hq
    · simp only [Option.some.injEq] at hd hq
      obtain ⟨tail, hlen, hw⟩ := components_dirname s
      rw [hw dfd, hq] at hd
      cases tail with
      | nil =>
        left
        simpa [walk] using hd.symm
      | cons c rest =>
        cases rest with
        | nil =>
          rcases walk_single q c with h1 | h1 | h1
          · left; rw [← hd, h1]
          · right; left; rw [← hd, h1]
          · right; right; exact ⟨c, by rw [← hd, h1]⟩
        | cons _ _ => simp at hlen

/-! ## What `mkdir -p` creates -/

theorem mkdirChain_ensures (todo : List String) (fs : FS) (cur : Path) (fs1 : FS)
    (h : mkdirChain fs cur todo = some fs1) (k : Nat) (hk : k < todo.length) :
    lookup fs1 (cur ++ todo.take (k + 1)) = some Node.dir := by
  induction todo generalizing fs cur k with
  | nil => simp at hk
  | cons c cs ih =>
    unfold mkdirChain at h
    have hstep : ∀ fs2, lookup fs2 (cur ++ [c]) = some Node.dir →
        mkdirChain fs2 (cur ++ [c]) cs = some fs1 →
        lookup fs1 (cur ++ (c :: cs).take (k + 1)) = some Node.dir := by
      intro fs2 hdir hrest
      cases k with
      | zero =>
        simp only [Nat.zero_add, List.take_succ_cons, List.take_zero]
        exact grows_dir (mkdirChain_grows cs fs2 _ fs1 hrest) _ hdir
      | succ j =>
        have := ih fs2 (cur ++ [c]) hrest j (by simpa using hk)
        simpa using this
    cases hl : lookup fs (cur ++ [c]) with
    | none =>
      simp only [hl] at h
      exact hstep _ (by simp [lookup_cons]) h
    | some m =>
      cases m with
      | dir =>
        simp only [hl] at h
        exact hstep _ hl h
      | file x => simp [hl] at h

theorem mkdirChain_added (todo : List String) (fs : FS) (cur : Path) (fs1 : FS)
    (h : mkdirChain fs cur todo = some fs1) (p : Path) (hnew : lookup fs p = none)
    (hex : lookup fs1 p ≠ none) :
    lookup fs1 p = some Node.dir ∧ ∃ k, k < todo.length ∧ p = cur ++ todo.take (k + 1) := by
  induction todo generalizing fs cur with
  | nil =>
    simp only [mkdirChain, Option.some.injEq] at h
    subst h
    exact absurd hnew hex
  | cons c cs ih =>
    unfold mkdirChain at h
    have lift : ∀ fs2, mkdirChain fs2 (cur ++ [c]) cs = some fs1 → lookup fs2 p = none →
        lookup fs1 p = some Node.dir ∧
          ∃ k, k < (c :: cs).length ∧ p = cur ++ (c :: cs).take (k + 1) := by
      intro fs2 hrest hp
      obtain ⟨hd, k, hk, hpk⟩ := ih fs2 (cur ++ [c]) hrest hp
      exact ⟨hd, k + 1, by simpa using hk, by simpa using hpk⟩
    cases hl : lookup fs (cur ++ [c]) with
    | none =>
      simp only [hl] at h
      by_cases hp : cur ++ [c] = p
      · subst hp
        refine ⟨?_, 0, by simp, by simp⟩
        exact grows_dir (mkdirChain_grows cs _ _ fs1 h) _ (by simp [lookup_cons])
      · exact lift _ h (by rw [lookup_cons, if_neg hp]; exact hnew)
    | some m =>
      cases m with
      | dir =>
        simp only [hl] at h
        exact lift _ h hnew
      | file x => simp [hl] at h

/-- What a successful `do_copy_if_needed` adds: the destination as a regular
file, and directories strictly above it. -/
theorem do_copy_if_needed_added (env : Env) (r : String) (bootfd efifd : Path) (fs : FS)
    (hok : (do_copy_if_needed env (some r) bootfd efifd fs).ok = true) (p : Path)
    (hnew : lookup fs p = none)
    (hex : lookup (do_copy_if_needed env (some r) bootfd efifd fs).fs p ≠ none) :
    ∃ d, resolve efifd (skipLeadingSlash r) = some d ∧
      ((p = d ∧ isFileNode (lookup (do_copy_if_needed env (some r) bootfd efifd fs).fs p) = true) ∨
       (lookup (do_copy_if_needed env (some r) bootfd efifd fs).fs p = some Node.dir ∧
          ∃ t, t ≠ [] ∧ p ++ t = d)) := by
  simp only [do_copy_if_needed] at hok hex ⊢
  cases hst : fstatat env fs efifd (skipLeadingSlash r) with
  | found => rw [hst] at hex; exact absurd hnew hex
  | failed => simp [hst] at hok
  | enoent =>
    simp only [hst] at hok hex ⊢
    cases hmk : glnx_shutil_mkdir_p_at env fs efifd (g_path_get_dirname (skipLeadingSlash r)) with
    | none => simp [hmk] at hok
    | some fs1 =>
      simp only [hmk] at hok hex ⊢
      cases hcp : glnx_file_copy_at env fs1 bootfd (skipLeadingSlash r) efifd
          (skipLeadingSlash r) with
      | none => simp [hcp] at hok
      | some fs2 =>
        simp only [hcp] at hex ⊢
        obtain ⟨q, hq, hm⟩ := glnx_shutil_mkdir_p_at_eq_some env fs efifd _ fs1 hmk
        obtain ⟨s0, d, c, -, hd, -, hdnew, hdpar, rfl⟩ :=
          glnx_file_copy_at_eq_some _ _ _ _ _ _ _ hcp
        refine ⟨d, hd, ?_⟩
        by_cases hpd : p = d
        · left
          subst hpd
          exact ⟨rfl, by simp [lookup_cons, isFileNode]⟩
        · right
          have hpd2 : d ≠ p := fun e => hpd e.symm
          rw [lookup_cons, if_neg hpd2] at hex ⊢
          obtain ⟨hdir, k, hk, hpk⟩ := mkdirChain_added q fs [] fs1 hm p hnew hex
          refine ⟨hdir, ?_⟩
          simp only [List.nil_append] at hpk
          have hens : ∀ j, j < q.length → lookup fs1 (q.take (j + 1)) = some Node.dir := by
            intro j hj
            have := mkdirChain_ensures q fs [] fs1 hm j hj
            simpa using this
          have hqd : ∃ c, d = q ++ [c] := by
            rcases resolve_dirname efifd _ d q hd hq with h1 | h1 | h1
            · exfalso
              subst h1
              cases hdl : d.length with
              | zero =>
                have : d = [] := List.length_eq_zero.mp hdl
                subst this
                simp only [List.dropLast_nil] at hdpar
                rw [hdnew] at hdpar
                cases hdpar
              | succ j =>
                have := hens j (by omega)
                rw [List.take_of_length_le (by omega)] at this
                rw [hdnew] at this
                cases this
            · exfalso
              cases hdl : d.length with
              | zero =>
                have : d = [] := List.length_eq_zero.mp hdl
                subst this
                simp only [List.dropLast_nil] at hdpar
                rw [hdnew] at hdpar
                cases hdpar
              | succ j =>
                have hlen : d.length = q.length - 1 := by rw [h1]; simp
                have := hens j (by omega)
                have htake : q.take (j + 1) = d := by
                  rw [h1, List.dropLast_eq_take]
                  congr 1
                  omega
                rw [htake, hdnew] at this
                cases this
            · exact h1
          obtain ⟨c1, hc1⟩ := hqd
          refine ⟨q.drop (k + 1) ++ [c1], by simp, ?_⟩
          rw [hpk, hc1, ← List.append_assoc, List.take_append_drop]

/-! ## What one pass of the loop adds -/

theorem deploy_boot_data_added (env : Env) (config : BootEntryConfig) (fs : FS)
    (hok : (deploy_boot_data env config fs).1 = true) (p : Path)
    (hnew : lookup fs p = none) (hex : lookup (deploy_boot_data env config fs).2 p ≠ none) :
    env.open_fails ["boot", "efi"] = false ∧
    ∃ d, stagedBy [config] d ∧
      ((p = d ∧ isFileNode (lookup (deploy_boot_data env config fs).2 p) = true) ∨
       (lookup (deploy_boot_data env config fs).2 p = some Node.dir ∧
          ∃ t, t ≠ [] ∧ p ++ t = d)) := by
  unfold deploy_boot_data at hok hex ⊢
  cases hb : glnx_opendirat env fs [] "boot" with
  | none => simp [hb] at hok
  | some bootfd =>
    cases he : glnx_opendirat env fs [] "boot/efi" with
    | none =>
      simp only [hb, he] at hex
      exact absurd hnew hex
    | some efifd =>
      have hefi := glnx_opendirat_efi env fs efifd he
      subst hefi
      obtain ⟨-, -, hopen⟩ := (glnx_opendirat_eq_some _ _ _ _ _).mp he
      refine ⟨hopen, ?_⟩
      simp only [hb, he] at hok hex ⊢
      cases h1 : (do_copy_if_needed env (some config.linux) bootfd ["boot", "efi"] fs).ok with
      | false => simp [h1] at hok
      | true =>
        simp only [h1, Bool.true_eq_false, if_false] at hok hex ⊢
        cases h2 : (do_copy_if_needed env config.initrd bootfd ["boot", "efi"]
            (do_copy_if_needed env (some config.linux) bootfd ["boot", "efi"] fs).fs).ok with
        | false => simp [h2] at hok
        | true =>
          simp only [h2, Bool.true_eq_false, if_false] at hex ⊢
          have g2 := do_copy_if_needed_grows env config.initrd bootfd ["boot", "efi"]
            (do_copy_if_needed env (some config.linux) bootfd ["boot", "efi"] fs).fs
          by_cases hmid : lookup
              (do_copy_if_needed env (some config.linux) bootfd ["boot", "efi"] fs).fs p = none
          · cases hi : config.initrd with
            | none =>
              rw [hi] at hex
              exact absurd hmid hex
            | some i =>
              rw [hi] at hex h2
              obtain ⟨d, hd, hcase⟩ := do_copy_if_needed_added env i bootfd ["boot", "efi"] _
                h2 p hmid hex
              exact ⟨d, ⟨config, by simp, i, Or.inr hi, hd⟩, hcase⟩
          · obtain ⟨d, hd, hcase⟩ := do_copy_if_needed_added env config.linux bootfd
              ["boot", "efi"] fs h1 p hnew hmid
            refine ⟨d, ⟨config, by simp, config.linux, Or.inl rfl, hd⟩, ?_⟩
            rcases hcase with ⟨hpd, hfile⟩ | ⟨hdir, ht⟩
            · exact Or.inl ⟨hpd, grows_file g2 p hfile⟩
            · exact Or.inr ⟨grows_dir g2 p hdir, ht⟩

theorem write_out_boot_config_added (env : Env) (config : BootEntryConfig) (bootversion : Int)
    (fs : FS) (p : Path) (hnew : lookup fs p = none)
    (hex : lookup (write_out_boot_config env config bootversion fs).2 p ≠ none) :
    resolve entriesDir (entryFileName bootversion config.version) = some p ∧
      isFileNode (lookup (write_out_boot_config env config bootversion fs).2 p) = true := by
  unfold write_out_boot_config at hex ⊢
  cases hb : glnx_opendirat env fs [] config_path with
  | none => rw [hb] at hex; exact absurd hnew hex
  | some fd =>
    have hfd := glnx_opendirat_entries env fs fd hb
    subst hfd
    simp only [hb] at hex ⊢
    cases hw : ostree_bootconfig_parser_write_at env fs config entriesDir
        (entryFileName bootversion config.version) with
    | none => rw [hw] at hex; exact absurd hnew hex
    | some fs1 =>
      rw [hw] at hex
      simp only at hex ⊢
      obtain ⟨q, hres, -, -, rfl⟩ := write_at_eq_some _ _ _ _ _ _ hw
      rw [lookup_cons] at hex ⊢
      by_cases hq : q = p
      · subst hq
        exact ⟨hres, by simp [isFileNode]⟩
      · rw [if_neg hq, lookup_erasePath, if_neg (fun e => hq e.symm)] at hex
        exact absurd hnew hex

theorem stagedBy_cons_of_head (config : BootEntryConfig) (rest : List BootEntryConfig)
    (d : Path) (h : stagedBy [config] d) : stagedBy (config :: rest) d := by
  obtain ⟨e, he, r, hr, hres⟩ := h
  simp only [List.mem_singleton] at he
  subst he
  exact ⟨e, by simp, r, hr, hres⟩

theorem stagedBy_cons_of_tail (config : BootEntryConfig) (rest : List BootEntryConfig)
    (d : Path) (h : stagedBy rest d) : stagedBy (config :: rest) d := by
  obtain ⟨e, he, r, hr, hres⟩ := h
  exact ⟨e, List.mem_cons_of_mem _ he, r, hr, hres⟩

theorem write_config_loop_added (env : Env) (bootversion : Int) (L : List BootEntryConfig)
    (active : List String) (fs : FS)
    (hok : (write_config_loop env bootversion L active fs).1 = none) (p : Path)
    (hnew : lookup fs p = none)
    (hex : lookup (write_config_loop env bootversion L active fs).2.1 p ≠ none) :
    (env.open_fails ["boot", "efi"] = false ∧
      ∃ d, stagedBy L d ∧
        ((p = d ∧ isFileNode (lookup (write_config_loop env bootversion L active fs).2.1 p)
            = true) ∨
         (lookup (write_config_loop env bootversion L active fs).2.1 p = some Node.dir ∧
            ∃ t, t ≠ [] ∧ p ++ t = d))) ∨
    (writtenBy bootversion L p ∧
      isFileNode (lookup (write_config_loop env bootversion L active fs).2.1 p) = true) := by
  induction L generalizing active fs with
  | nil =>
    simp only [write_config_loop] at hex
    exact absurd hnew hex
  | cons config rest ih =>
    unfold write_config_loop at hok hex ⊢
    simp only at hok hex ⊢
    split at hok
    · cases hok
    · rename_i h1
      rw [if_neg h1] at hex ⊢
      split at hok
      · cases hok
      · rename_i h2
        rw [if_neg h2] at hex ⊢
        have gw := write_out_boot_config_grows env config bootversion
          (deploy_boot_data env config fs).2
        have gr := write_config_loop_grows env bootversion rest
          (if active.contains (bootdataKey config) then active else bootdataKey config :: active)
          (write_out_boot_config env config bootversion (deploy_boot_data env config fs).2).2
        by_cases hd : lookup (deploy_boot_data env config fs).2 p = none
        · by_cases hw : lookup (write_out_boot_config env config bootversion
              (deploy_boot_data env config fs).2).2 p = none
          · rcases ih _ _ hok hw hex with ⟨hopen, d, hs, hcase⟩ | ⟨hwr, hfile⟩
            · exact Or.inl ⟨hopen, d, stagedBy_cons_of_tail _ _ _ hs, hcase⟩
            · right
              obtain ⟨e, he, hres⟩ := hwr
              exact ⟨⟨e, List.mem_cons_of_mem _ he, hres⟩, hfile⟩
          · obtain ⟨hres, hfile⟩ := write_out_boot_config_added env config bootversion _ p hd hw
            right
            exact ⟨⟨config, by simp, hres⟩, grows_file gr p hfile⟩
        · obtain ⟨hopen, d, hs, hcase⟩ := deploy_boot_data_added env config fs
            (by simpa using h1) p hnew hd
          left
          refine ⟨hopen, d, stagedBy_cons_of_head _ _ _ hs, ?_⟩
          rcases hcase with ⟨hpd, hfile⟩ | ⟨hdir, ht⟩
          · exact Or.inl ⟨hpd, grows_file (grows_trans gw gr) p hfile⟩
          · exact Or.inr ⟨grows_dir (grows_trans gw gr) p hdir, ht⟩

/-! ## What a successful loop guarantees -/

theorem deploy_boot_data_staged_any (env : Env) (config : BootEntryConfig) (fs : FS)
    (hefi : lookup fs ["boot", "efi"] = some Node.dir)
    (hopen : env.open_fails ["boot", "efi"] = false)
    (hok : (deploy_boot_data env config fs).1 = true) (d : Path)
    (hd : stagedBy [config] d) :
    lookup (deploy_boot_data env config fs).2 d ≠ none := by
  obtain ⟨e, he, r, hr, hres⟩ := hd
  simp only [List.mem_singleton] at he
  subst he
  have hefi2 : glnx_opendirat env fs [] "boot/efi" = some ["boot", "efi"] :=
    (glnx_opendirat_eq_some _ _ _ _ _).mpr ⟨resolve_boot_efi, hefi, hopen⟩
  unfold deploy_boot_data at hok ⊢
  cases hb : glnx_opendirat env fs [] "boot" with
  | none => simp [hb] at hok
  | some bootfd =>
    simp only [hb, hefi2] at hok ⊢
    cases h1 : (do_copy_if_needed env (some e.linux) bootfd ["boot", "efi"] fs).ok with
    | false => simp [h1] at hok
    | true =>
      simp only [h1, Bool.true_eq_false, if_false] at hok ⊢
      cases h2 : (do_copy_if_needed env e.initrd bootfd ["boot", "efi"]
          (do_copy_if_needed env (some e.linux) bootfd ["boot", "efi"] fs).fs).ok with
      | false => simp [h2] at hok
      | true =>
        simp only [Bool.true_eq_false, if_false]
        rcases hr with hr | hr
        · cases hr
          have hs := do_copy_if_needed_staged env e.linux bootfd ["boot", "efi"] fs h1 d hres
          exact (do_copy_if_needed_grows env e.initrd bootfd ["boot", "efi"] _ d hs).1
        · rw [hr] at h2 ⊢
          exact do_copy_if_needed_staged env r bootfd ["boot", "efi"] _ h2 d hres

theorem write_config_loop_staged_any (env : Env) (bootversion : Int)
    (L : List BootEntryConfig) (active : List String) (fs : FS)
    (hefi : lookup fs ["boot", "efi"] = some Node.dir)
    (hopen : env.open_fails ["boot", "efi"] = false)
    (hok : (write_config_loop env bootversion L active fs).1 = none) (d : Path)
    (hd : stagedBy L d) :
    lookup (write_config_loop env bootversion L active fs).2.1 d ≠ none := by
  induction L generalizing active fs with
  | nil =>
    obtain ⟨e, he, -⟩ := hd
    cases he
  | cons config rest ih =>
    unfold write_config_loop at hok ⊢
    simp only at hok ⊢
    split at hok
    · cases hok
    · rename_i h1
      rw [if_neg h1]
      split at hok
      · cases hok
      · rename_i h2
        rw [if_neg h2]
        have g1 := deploy_boot_data_grows env config fs
        have g2 := write_out_boot_config_grows env config bootversion
          (deploy_boot_data env config fs).2
        obtain ⟨e, he, r, hr, hres⟩ := hd
        rcases List.mem_cons.mp he with h3 | h3
        · subst h3
          have hs := deploy_boot_data_staged_any env e fs hefi hopen (by simpa using h1) d
            ⟨e, by simp, r, hr, hres⟩
          exact (write_config_loop_grows env bootversion rest _ _ d (g2 d hs).1).1
        · exact ih _ _ (grows_dir (grows_trans g1 g2) _ hefi) hok ⟨e, h3, r, hr, hres⟩

/-! ## Calling `write_config` again -/

theorem wellFormed_ancestor (fs : FS) (hwf : wellFormed fs) (p : Path) (t : List String)
    (hex : lookup fs (p ++ t) ≠ none) (ht : t ≠ []) (hp : p ≠ []) :
    lookup fs p = some Node.dir := by
  induction t using List.reverseRecOn with
  | nil => exact absurd rfl ht
  | append_singleton t1 c ih =>
    rw [← List.append_assoc] at hex
    rcases hwf (p ++ t1) c hex with h1 | h1
    · exact absurd (List.append_eq_nil.mp h1).1 hp
    · by_cases ht1 : t1 = []
      · subst ht1
        simpa using h1
      · exact ih (by rw [h1]; simp) ht1

theorem clean_bootversion_payload_child (env : Env) (bootversion : Int) (fs fs1 : FS)
    (h : clean_bootversion env bootversion fs = (true, fs1)) (n : String) :
    lookup fs1 (payloadRoot ++ [n]) = lookup fs (payloadRoot ++ [n]) := by
  rw [clean_bootversion_lookup _ _ _ _ h,
    entrySwept_not_child _ _ _ _ (fun m => payload_child_not_entry n m)]
  simp

theorem clean_bootversion_efi (env : Env) (bootversion : Int) (fs fs1 : FS)
    (h : clean_bootversion env bootversion fs = (true, fs1)) :
    lookup fs1 ["boot", "efi"] = lookup fs ["boot", "efi"] := by
  rw [clean_bootversion_lookup _ _ _ _ h, entrySwept_not_child]
  · simp
  · intro n hn
    have := congrArg List.length hn
    simp [entriesDir] at this

theorem opposite_slot_name (bootversion : Int) (hslot : bootversion = 0 ∨ bootversion = 1)
    (n : String) (h : isSlotEntryName bootversion n = true) :
    isSlotEntryName (if bootversion = 0 then 1 else 0) n = false := by
  rcases hslot with hb | hb
  · subst hb
    exact slot_entry_zero_not_one n h
  · subst hb
    exact slot_entry_one_not_zero n h

/-- C4 (as stated, refuted): on a well-formed sysroot where the initramfs of
the entry is already staged under a payload directory the entry's kernel does
not reference, the first `write_config` succeeds (and sweeps that directory)
and the second call with the same entries fails at staging. -/
theorem second_write_config_can_fail :
    wellFormedB prestagedFs = true ∧
    (_ostree_bootloader_sd_boot_write_config (quietEnv [sharedInitrdEntry]) 0 prestagedFs).1
      = none ∧
    (_ostree_bootloader_sd_boot_write_config (quietEnv [sharedInitrdEntry]) 0
      (_ostree_bootloader_sd_boot_write_config (quietEnv [sharedInitrdEntry]) 0
        prestagedFs).2).1 = some Failure.stage := by
  decide

/-- C4 (amended): for slot 0 or 1, on a well-formed filesystem, when
`write_config` with entries `L` succeeds and a second call with the same `L`
under the same environment succeeds as well, the second call leaves the same
set of names in the loader-entries directory and the same set of names under
the payload root `boot/efi/ostree` as the first call did. -/
theorem second_write_config_same_sets (env : Env) (bootversion : Int) (fs : FS)
    (L : List BootEntryConfig) (hslot : bootversion = 0 ∨ bootversion = 1)
    (hwf : wellFormed fs)
    (hfetch : _ostree_sysroot_read_boot_loader_configs env bootversion = some L)
    (hok1 : (_ostree_bootloader_sd_boot_write_config env bootversion fs).1 = none)
    (hok2 : (_ostree_bootloader_sd_boot_write_config env bootversion
      (_ostree_bootloader_sd_boot_write_config env bootversion fs).2).1 = none) :
    (∀ n, lookup (_ostree_bootloader_sd_boot_write_config env bootversion
        (_ostree_bootloader_sd_boot_write_config env bootversion fs).2).2 (entriesDir ++ [n])
          ≠ none ↔
      lookup (_ostree_bootloader_sd_boot_write_config env bootversion fs).2 (entriesDir ++ [n])
          ≠ none) ∧
    (∀ n, lookup (_ostree_bootloader_sd_boot_write_config env bootversion
        (_ostree_bootloader_sd_boot_write_config env bootversion fs).2).2 (payloadRoot ++ [n])
          ≠ none ↔
      lookup (_ostree_bootloader_sd_boot_write_config env bootversion fs).2 (payloadRoot ++ [n])
          ≠ none) := by
  obtain ⟨fs0, L1, o1, hc1, hfe1, hl1, hopp1, hpay1⟩ :=
    write_config_success env bootversion fs hok1
  rw [hfetch] at hfe1
  cases hfe1
  generalize hf1 : (_ostree_bootloader_sd_boot_write_config env bootversion fs).2 = f1
    at hok2 hpay1 ⊢
  obtain ⟨g0, L2, o2, hd1, hfe2, hl2, hopp2, hpay2⟩ :=
    write_config_success env bootversion f1 hok2
  rw [hfetch] at hfe2
  cases hfe2
  generalize hf2 : (_ostree_bootloader_sd_boot_write_config env bootversion f1).2 = f2
    at hpay2 ⊢
  generalize hopp : (if bootversion = 0 then (1 : Int) else 0) = opp at hopp1 hopp2
  have hoppname : ∀ n, isSlotEntryName bootversion n = true → isSlotEntryName opp n = false := by
    intro n hn
    rw [← hopp]
    exact opposite_slot_name bootversion hslot n hn
  -- the states between the steps
  have g1 := write_config_loop_grows env bootversion L [] fs0
  have g2 := write_config_loop_grows env bootversion L [] g0
  generalize hm1 : (write_config_loop env bootversion L [] fs0).2.1 = m1 at hopp1 g1
  generalize hm2 : (write_config_loop env bootversion L [] g0).2.1 = m2 at hopp2 g2
  have hact1 := write_config_loop_active env bootversion L [] fs0 hl1
  have hact2 := write_config_loop_active env bootversion L [] g0 hl2
  generalize hA1 : (write_config_loop env bootversion L [] fs0).2.2 = A1 at hpay1 hact1
  generalize hA2 : (write_config_loop env bootversion L [] g0).2.2 = A2 at hpay2 hact2
  have hAeq : ∀ n, A1.contains n = A2.contains n := by
    intro n
    have h1 := hact1 n
    have h2 := hact2 n
    have : n ∈ A1 ↔ n ∈ A2 := h1.trans h2.symm
    by_cases hn : n ∈ A1
    · have hn2 := this.mp hn
      simp [hn, hn2]
    · have hn2 : n ∉ A2 := fun h => hn (this.mpr h)
      simp [hn, hn2]
  -- well-formedness along the first call
  have wf0 : wellFormed fs0 := by
    have := clean_bootversion_wellFormed env bootversion fs hwf
    rw [hc1] at this
    exact this
  have wfm1 : wellFormed m1 := by
    rw [← hm1]
    exact write_config_loop_wellFormed env bootversion L [] fs0 wf0
  have wfo1 : wellFormed o1 := by
    have := clean_bootversion_wellFormed env opp m1 wfm1
    rw [hopp1] at this
    exact this
  have wff1 : wellFormed f1 := by
    have := clean_bootdata_wellFormed env A1 o1 wfo1
    rw [hpay1] at this
    exact this
  have hefi0 : lookup fs0 ["boot", "efi"] = some Node.dir := by
    rw [clean_bootversion_efi _ _ _ _ hc1]
    exact efi_is_dir_of_entries fs hwf (clean_bootversion_opened _ _ _ _ hc1).1
  have hefig : lookup g0 ["boot", "efi"] = some Node.dir := by
    rw [clean_bootversion_efi _ _ _ _ hd1]
    exact efi_is_dir_of_entries f1 wff1 (clean_bootversion_opened _ _ _ _ hd1).1
  -- whatever the second loop adds was there after the first loop
  have added2 : ∀ p, p ≠ [] → lookup g0 p = none → lookup m2 p ≠ none →
      lookup m1 p ≠ none ∧ (isFileNode (lookup m2 p) = true ∨ lookup m1 p = some Node.dir) := by
    intro p hp hnew hex
    rw [← hm2] at hex
    rcases write_config_loop_added env bootversion L [] g0 hl2 p hnew hex with
      ⟨hopen, d, hs, hcase⟩ | ⟨⟨e, he, hres⟩, hfile⟩
    · have hd : lookup m1 d ≠ none := by
        rw [← hm1]
        exact write_config_loop_staged_any env bootversion L [] fs0 hefi0 hopen hl1 d hs
      rcases hcase with ⟨hpd, hfile⟩ | ⟨-, t, ht, hpt⟩
      · subst hpd
        rw [hm2] at hfile
        exact ⟨hd, Or.inl hfile⟩
      · subst hpt
        have := wellFormed_ancestor m1 wfm1 p t hd ht hp
        exact ⟨by rw [this]; simp, Or.inr this⟩
    · obtain ⟨p1, hres1, hfile1⟩ := write_config_loop_written env bootversion L [] fs0 hl1 e he
      rw [hres] at hres1
      cases hres1
      rw [hm1] at hfile1
      rw [hm2] at hfile
      refine ⟨?_, Or.inl hfile⟩
      intro hnone
      rw [hnone] at hfile1
      cases hfile1
  -- whatever the first loop added is there after the second loop
  have added1 : ∀ p, lookup fs0 p = none → isFileNode (lookup m1 p) = true →
      lookup m2 p ≠ none := by
    intro p hnew hfile
    have hex : lookup (write_config_loop env bootversion L [] fs0).2.1 p ≠ none := by
      rw [hm1]
      intro hnone
      rw [hnone] at hfile
      cases hfile
    rcases write_config_loop_added env bootversion L [] fs0 hl1 p hnew hex with
      ⟨hopen, d, hs, hcase⟩ | ⟨⟨e, he, hres⟩, -⟩
    · rcases hcase with ⟨hpd, -⟩ | ⟨hdir, -⟩
      · subst hpd
        rw [← hm2]
        exact write_config_loop_staged_any env bootversion L [] g0 hefig hopen hl2 p hs
      · rw [hm1] at hdir
        rw [hdir] at hfile
        cases hfile
    · obtain ⟨p1, hres1, hfile1⟩ := write_config_loop_written env bootversion L [] g0 hl2 e he
      rw [hres] at hres1
      cases hres1
      rw [hm2] at hfile1
      intro hnone
      rw [hnone] at hfile1
      cases hfile1
  constructor
  · -- the loader-entries directory
    intro n
    have e_f1 : lookup f1 (entriesDir ++ [n]) = lookup o1 (entriesDir ++ [n]) :=
      clean_bootdata_entry _ _ _ _ hpay1 n
    have e_f2 : lookup f2 (entriesDir ++ [n]) = lookup o2 (entriesDir ++ [n]) :=
      clean_bootdata_entry _ _ _ _ hpay2 n
    have e_o1 := clean_bootversion_lookup _ _ _ _ hopp1 (entriesDir ++ [n])
    have e_o2 := clean_bootversion_lookup _ _ _ _ hopp2 (entriesDir ++ [n])
    have e_g0 := clean_bootversion_lookup _ _ _ _ hd1 (entriesDir ++ [n])
    have e_fs0 := clean_bootversion_lookup _ _ _ _ hc1 (entriesDir ++ [n])
    rw [entrySwept_child] at e_o1 e_o2 e_g0 e_fs0
    rw [e_f1, e_f2]
    constructor
    · intro h2
      rw [e_o2] at h2
      split at h2
      · exact absurd rfl h2
      · rename_i hsw2
        by_cases hg : lookup g0 (entriesDir ++ [n]) = none
        · obtain ⟨hex1, hkind⟩ := added2 _ (by simp) hg h2
          rw [e_o1]
          have hsw1 : (isSlotEntryName opp n && isFileNode (lookup m1 (entriesDir ++ [n]))
              && !env.unlink_fails (entriesDir ++ [n])) = false := by
            rcases hkind with hfile | hdir
            · rw [hfile] at hsw2
              cases hs : isSlotEntryName opp n with
              | false => simp
              | true =>
                cases hu : env.unlink_fails (entriesDir ++ [n]) with
                | true => simp
                | false => simp [hs, hu] at hsw2
            · rw [hdir]
              simp [isFileNode]
          rw [hsw1]
          simpa using hex1
        · rw [e_g0] at hg
          split at hg
          · exact absurd rfl hg
          · rw [← e_f1]
            exact hg
    · intro h1
      rw [e_o1] at h1
      split at h1
      · exact absurd rfl h1
      · rename_i hsw1
        have hf1m1 : lookup f1 (entriesDir ++ [n]) = lookup m1 (entriesDir ++ [n]) := by
          rw [e_f1, e_o1, if_neg hsw1]
        by_cases hswb : (isSlotEntryName bootversion n
            && isFileNode (lookup f1 (entriesDir ++ [n]))
            && !env.unlink_fails (entriesDir ++ [n])) = true
        · -- removed by the second sweep-before, so written or staged again
          simp only [Bool.and_eq_true, Bool.not_eq_true', ] at hswb
          obtain ⟨⟨hname, hfile⟩, hunl⟩ := hswb
          rw [hf1m1] at hfile
          have hnew0 : lookup fs0 (entriesDir ++ [n]) = none := by
            cases hl0 : lookup fs0 (entriesDir ++ [n]) with
            | none => rfl
            | some node =>
              exfalso
              have hk := (g1 (entriesDir ++ [n]) (by rw [hl0]; simp)).2
              rw [hfile] at hk
              rw [e_fs0] at hl0
              split at hl0
              · cases hl0
              · rename_i hno
                rw [e_fs0, if_neg hno] at hk
                apply hno
                simp [hname, ← hk, hunl]
          have hex2 := added1 _ hnew0 hfile
          rw [e_o2, hoppname n hname]
          simpa using hex2
        · have hg : lookup g0 (entriesDir ++ [n]) = lookup m1 (entriesDir ++ [n]) := by
            rw [e_g0, if_neg hswb, hf1m1]
          have hgex : lookup g0 (entriesDir ++ [n]) ≠ none := by rw [hg]; exact h1
          obtain ⟨hex2, hkind⟩ := g2 _ hgex
          rw [e_o2, hkind, hg]
          rw [if_neg hsw1]
          exact hex2
  · -- the payload root
    intro n
    have p_o1 : lookup o1 (payloadRoot ++ [n]) = lookup m1 (payloadRoot ++ [n]) :=
      clean_bootversion_payload_child _ _ _ _ hopp1 n
    have p_o2 : lookup o2 (payloadRoot ++ [n]) = lookup m2 (payloadRoot ++ [n]) :=
      clean_bootversion_payload_child _ _ _ _ hopp2 n
    have p_g0 : lookup g0 (payloadRoot ++ [n]) = lookup f1 (payloadRoot ++ [n]) :=
      clean_bootversion_payload_child _ _ _ _ hd1 n
    have p_f1 := clean_bootdata_lookup _ _ _ _ hpay1 (payloadRoot ++ [n])
    have p_f2 := clean_bootdata_lookup _ _ _ _ hpay2 (payloadRoot ++ [n])
    rw [payloadSwept_child] at p_f1 p_f2
    rw [← hAeq n] at p_f2
    constructor
    · intro h2
      rw [p_f2] at h2
      split at h2
      · exact absurd rfl h2
      · rename_i hsw2
        rw [p_o2] at h2 hsw2
        have hkeep : (!A1.contains n && !env.rm_rf_fails (payloadRoot ++ [n])) = false := by
          cases hk : (!A1.contains n && !env.rm_rf_fails (payloadRoot ++ [n])) with
          | false => rfl
          | true =>
            exfalso
            apply hsw2
            rw [hk]
            cases hl : lookup m2 (payloadRoot ++ [n]) with
            | none => exact absurd hl h2
            | some _ => rfl
        by_cases hg : lookup g0 (payloadRoot ++ [n]) = none
        · obtain ⟨hex1, -⟩ := added2 _ (by simp) hg h2
          rw [p_f1, hkeep, p_o1]
          simpa using hex1
        · rw [p_g0] at hg
          exact hg
    · intro h1
      have hg : lookup g0 (payloadRoot ++ [n]) ≠ none := by rw [p_g0]; exact h1
      have hex2 := (g2 _ hg).1
      rw [p_f1] at h1
      split at h1
      · exact absurd rfl h1
      · rename_i hsw1
        have hkeep : (!A1.contains n && !env.rm_rf_fails (payloadRoot ++ [n])) = false := by
          cases hk : (!A1.contains n && !env.rm_rf_fails (payloadRoot ++ [n])) with
          | false => rfl
          | true =>
            exfalso
            apply hsw1
            rw [hk]
            cases hl : lookup o1 (payloadRoot ++ [n]) with
            | none => exact absurd hl h1
            | some _ => rfl
        rw [p_f2, hkeep, p_o2]
        simpa using hex2

/-- C4 (amended), witness: writing deployment `abc123` twice on the sample sysroot. -/
theorem second_write_config_same_sets_witness :
    wellFormedB ostreeFs = true ∧
    (_ostree_bootloader_sd_boot_write_config (quietEnv [ostreeEntry]) 0 ostreeFs).1 = none ∧
    (_ostree_bootloader_sd_boot_write_config (quietEnv [ostreeEntry]) 0
      (_ostree_bootloader_sd_boot_write_config (quietEnv [ostreeEntry]) 0 ostreeFs).2).1
      = none ∧
    ((∀ n, lookup (_ostree_bootloader_sd_boot_write_config (quietEnv [ostreeEntry]) 0
        (_ostree_bootloader_sd_boot_write_config (quietEnv [ostreeEntry]) 0 ostreeFs).2).2
          (entriesDir ++ [n]) ≠ none ↔
      lookup (_ostree_bootloader_sd_boot_write_config (quietEnv [ostreeEntry]) 0 ostreeFs).2
          (entriesDir ++ [n]) ≠ none) ∧
    (∀ n, lookup (_ostree_bootloader_sd_boot_write_config (quietEnv [ostreeEntry]) 0
        (_ostree_bootloader_sd_boot_write_config (quietEnv [ostreeEntry]) 0 ostreeFs).2).2
          (payloadRoot ++ [n]) ≠ none ↔
      lookup (_ostree_bootloader_sd_boot_write_config (quietEnv [ostreeEntry]) 0 ostreeFs).2
          (payloadRoot ++ [n]) ≠ none)) :=
  ⟨by decide, by decide, by decide,
   second_write_config_same_sets (quietEnv [ostreeEntry]) 0 ostreeFs [ostreeEntry]
     (Or.inl rfl) (wellFormed_of_check ostreeFs (by decide)) rfl (by decide) (by decide)⟩

/-- C3 (amended), witness: deployment `abc123` written for slot 0, then `def456` for slot 1. -/
theorem slot_isolation_on_write_witness :
    (_ostree_bootloader_sd_boot_write_config (twoSlotEnv [ostreeEntry] [nextEntry]) 0
      twoDeploymentsFs).1 = none ∧
    (_ostree_bootloader_sd_boot_write_config (twoSlotEnv [ostreeEntry] [nextEntry]) 1
      (_ostree_bootloader_sd_boot_write_config (twoSlotEnv [ostreeEntry] [nextEntry]) 0
        twoDeploymentsFs).2).1 = none ∧
    ((∀ n, isSlotEntryName 0 n = true →
      isFileNode (lookup (_ostree_bootloader_sd_boot_write_config
        (twoSlotEnv [ostreeEntry] [nextEntry]) 1
        (_ostree_bootloader_sd_boot_write_config (twoSlotEnv [ostreeEntry] [nextEntry]) 0
          twoDeploymentsFs).2).2 (entriesDir ++ [n])) = false) ∧
    (∀ n, (isSlotEntryName 1 n = true ∧
        isFileNode (lookup (_ostree_bootloader_sd_boot_write_config
          (twoSlotEnv [ostreeEntry] [nextEntry]) 1
          (_ostree_bootloader_sd_boot_write_config (twoSlotEnv [ostreeEntry] [nextEntry]) 0
            twoDeploymentsFs).2).2 (entriesDir ++ [n])) = true) ↔
        ∃ e ∈ [nextEntry], n = entryFileName 1 e.version)) :=
  ⟨by decide, by decide,
   (slot_isolation_on_write (twoSlotEnv [ostreeEntry] [nextEntry]) twoDeploymentsFs
     [ostreeEntry] [nextEntry] rfl rfl (by decide) (by decide) (fun _ => rfl)).1,
   (slot_isolation_on_write (twoSlotEnv [ostreeEntry] [nextEntry]) twoDeploymentsFs
     [ostreeEntry] [nextEntry] rfl rfl (by decide) (by decide) (fun _ => rfl)).2
     (by
       intro e he
       simp only [List.mem_singleton] at he
       subst he
       decide)
     (by
       intro e he r hr n
       simp only [List.mem_singleton] at he
       subst he
       have hr1 : r = "/ostree/def456/vmlinuz" := by
         rcases hr with h | h
         · simpa [nextEntry] using h.symm
         · simp [nextEntry] at h
       subst hr1
       have hres : resolve ["boot", "efi"] (skipLeadingSlash "/ostree/def456/vmlinuz")
           = some ["boot", "efi", "ostree", "def456", "vmlinuz"] := by decide
       rw [hres]
       intro h
       simp [entriesDir] at h)⟩

/-- Why the amended C3 asks that nothing be staged into the loader-entries
directory: a `linux` path under `loader/entries` is copied there, and the
directory then holds a file `ostree-1-*.conf` that no entry's version names. -/
theorem staged_file_can_land_in_entries :
    (_ostree_bootloader_sd_boot_write_config (quietEnv [entriesKernelEntry]) 1
      stagingEntriesFs).1 = none ∧
    slotEntryFiles 1 (_ostree_bootloader_sd_boot_write_config (quietEnv [entriesKernelEntry]) 1
      stagingEntriesFs).2 = ["ostree-1-2.conf", "ostree-1-zzz.conf"] := by
  decide

end SdBoot
